import Mathlib

/-!
Shallow embedding of `streamlit_translate_3.py` (translation-dashboard).

A pandas `DataFrame` is modelled column-wise: a table is a list of
`(column name, list of cells)` pairs, in column order.  A cell is either
absent (`NaN`/`NaT`), a string, a boolean, a rational number, a timestamp
(minutes since an epoch) or a calendar date (days since the epoch).
External parsers (`pd.to_datetime`'s and `pd.to_numeric`'s string
recognisers) are parameters of the embedding.
-/

namespace TranslationDashboard

inductive Cell where
  | absent
  | str (s : String)
  | boolean (b : Bool)
  | num (q : ℚ)
  | time (z : ℤ)
  | date (d : ℤ)
deriving DecidableEq, Repr

abbrev Table := List (String × List Cell)

/-- `len(df)`: the number of rows, read off the first column. -/
def Table.nrows : Table → Nat
  | [] => 0
  | e :: _ => e.2.length

/-- `name in df.columns`. -/
def Table.hasCol (t : Table) (n : String) : Bool := t.any (fun e => e.1 == n)

/-- `df[name]` as a read: the cells of the first column called `name`. -/
def Table.getCol (t : Table) (n : String) : Option (List Cell) :=
  (t.find? (fun e => e.1 == n)).map (fun e => e.2)

/-- In-place update of every column called `name` (pandas column assignment). -/
def Table.updCol (t : Table) (n : String) (g : List Cell → List Cell) : Table :=
  t.map (fun e => if e.1 == n then (e.1, g e.2) else e)

/-- `df[name] = df[name].map-like-op`: fails (KeyError) when the column is missing. -/
def Table.mapCol (t : Table) (n : String) (f : Cell → Cell) : Option Table :=
  if t.hasCol n then some (t.updCol n (List.map f)) else none

/-- The same column-map, guarded by `if name in df.columns`. -/
def Table.mapColIf (t : Table) (n : String) (f : Cell → Cell) : Table :=
  if t.hasCol n then t.updCol n (List.map f) else t

/-- `df[name] = values`: overwrite when present, append a new column otherwise. -/
def Table.putCol (t : Table) (n : String) (cs : List Cell) : Table :=
  if t.hasCol n then t.updCol n (fun _ => cs) else t ++ [(n, cs)]

/-- `df.columns = df.columns.map f`. -/
def Table.renameCols (t : Table) (f : String → String) : Table :=
  t.map (fun e => (f e.1, e.2))

/-- Row selection by a boolean mask, applied to one column. -/
def maskCol (mask : List Bool) (cs : List Cell) : List Cell :=
  ((mask.zip cs).filter (fun p => p.1)).map (fun p => p.2)

/-- `df[mask]`: row selection by a boolean mask, applied to every column. -/
def Table.filterMask (t : Table) (mask : List Bool) : Table :=
  t.map (fun e => (e.1, maskCol mask e.2))

/-- Well-formed table: every column has the common row count. -/
def Table.wf (t : Table) : Prop := ∀ e ∈ t, e.2.length = t.nrows

/-! ### Cell-level operations used by preprocessing -/

/-- Python `str.strip()` on the character list. -/
def pyStrip (l : List Char) : List Char :=
  ((l.dropWhile Char.isWhitespace).reverse.dropWhile Char.isWhitespace).reverse

/-- Python `str.rstrip(',')`: drop the whole trailing run of commas. -/
def pyRstripComma (l : List Char) : List Char :=
  (l.reverse.dropWhile (fun c => c == ',')).reverse

/-- `name.strip().rstrip(',')`, the column-name cleaning of line 40. -/
def cleanName (s : String) : String := ⟨pyRstripComma (pyStrip s.data)⟩

/-- `.fillna(d)` on one cell. -/
def fillna (d : Cell) (c : Cell) : Cell := if c = Cell.absent then d else c

/-- `.map({'Yes': True, 'No': False})` on one cell: unmatched values become NaN. -/
def yesNoMap (c : Cell) : Cell :=
  if c = Cell.str "Yes" then Cell.boolean true
  else if c = Cell.str "No" then Cell.boolean false
  else Cell.absent

/-- `.map({'Yes': True, 'No': False}).fillna(False)` on one cell. -/
def yesNoFill (c : Cell) : Cell := fillna (Cell.boolean false) (yesNoMap c)

/-- `pd.to_datetime(·, errors='coerce')` on one cell, parameterised by the
string parser; anything unparsable coerces to NaT (absent). -/
def toDatetime (pt : String → Option ℤ) (c : Cell) : Cell :=
  match c with
  | Cell.time z => Cell.time z
  | Cell.str s => match pt s with | some z => Cell.time z | none => Cell.absent
  | _ => Cell.absent

/-- `pd.to_numeric(·, errors='coerce')` on one cell, parameterised by the
string parser; booleans convert to 0/1, anything unparsable coerces to NaN. -/
def toNumeric (pn : String → Option ℚ) (c : Cell) : Cell :=
  match c with
  | Cell.num q => Cell.num q
  | Cell.str s => match pn s with | some q => Cell.num q | none => Cell.absent
  | Cell.boolean b => Cell.num (if b then 1 else 0)
  | _ => Cell.absent

/-- Timestamps are minutes since the epoch; `.dt.date` floors to the day. -/
def dateOf (z : ℤ) : ℤ := z.fdiv 1440

/-- `.dt.hour`. -/
def hourOf (z : ℤ) : ℤ := z.fdiv 60 % 24

/-- `.dt.hour` cellwise: NaT yields NaN. -/
def hourCell : Cell → Cell
  | Cell.time z => Cell.num (hourOf z)
  | _ => Cell.absent

/-- `.dt.date` cellwise: NaT yields NaN. -/
def dateCell : Cell → Cell
  | Cell.time z => Cell.date (dateOf z)
  | _ => Cell.absent

/-- `.astype(str)` on one cell. -/
def render : Cell → String
  | Cell.str s => s
  | Cell.absent => "nan"
  | Cell.boolean b => if b then "True" else "False"
  | Cell.num q => toString q
  | Cell.time z => toString z
  | Cell.date d => toString d

/-- The direction label of one row: `From.astype(str) + ' → ' + To.astype(str)`. -/
def mkDirection (p : Cell × Cell) : Cell :=
  Cell.str (render p.1 ++ " → " ++ render p.2)

/-! ### `preprocess_data` (lines 36-70)

The `try`/`except` wrapper is modelled by `Option`: the three unguarded
column reads (`From`, `To`, `Status`) raise `KeyError` when the column is
missing, which the `except` catches, yielding `None`. -/

/-- Lines 55-58: parse `Timestamp` and derive `Hour` and `Date`, all guarded
by `if 'Timestamp' in df.columns`. -/
def tsBlock (pt : String → Option ℤ) (t : Table) : Table :=
  if t.hasCol "Timestamp" then
    let t1 := t.mapColIf "Timestamp" (toDatetime pt)
    let ts := (t1.getCol "Timestamp").getD []
    (t1.putCol "Hour" (ts.map hourCell)).putCol "Date" (ts.map dateCell)
  else t

/-- Line 65: `df['Translation Direction'] = df['From'].astype(str) + ' → ' + df['To'].astype(str)`. -/
def dirBlock (t : Table) : Table :=
  t.putCol "Translation Direction"
    ((((t.getCol "From").getD []).zip ((t.getCol "To").getD [])).map mkDirection)

def preprocess_data (pt : String → Option ℤ) (pn : String → Option ℚ)
    (df : Table) : Option Table := do
  -- Clean column names - remove trailing spaces and commas
  let df := df.renameCols cleanName
  -- Handle missing values
  let df ← df.mapCol "From" (fillna (Cell.str "Unknown"))
  let df ← df.mapCol "To" (fillna (Cell.str "Unknown"))
  let df ← df.mapCol "Status" (fillna (Cell.str "Unknown"))
  -- Convert boolean columns
  let df := df.mapColIf "Completed" yesNoFill
  let df := df.mapColIf "Timed Out" yesNoFill
  -- Parse timestamp, derive Hour and Date
  let df := tsBlock pt df
  -- Clean translation scores
  let df := df.mapColIf "Translation Score" (toNumeric pn)
  -- Create translation direction
  return dirBlock df

/-- The body of `preprocess_data` as a total function on a table whose
column names are already cleaned and whose `From`/`To`/`Status` lookups
succeed: the chain of column updates of lines 43-65. -/
def preprocessSteps (pt : String → Option ℤ) (pn : String → Option ℚ)
    (t : Table) : Table :=
  let t1 := t.updCol "From" (List.map (fillna (Cell.str "Unknown")))
  let t2 := t1.updCol "To" (List.map (fillna (Cell.str "Unknown")))
  let t3 := t2.updCol "Status" (List.map (fillna (Cell.str "Unknown")))
  let t4 := t3.mapColIf "Completed" yesNoFill
  let t5 := t4.mapColIf "Timed Out" yesNoFill
  let t6 := tsBlock pt t5
  let t7 := t6.mapColIf "Translation Score" (toNumeric pn)
  dirBlock t7

/-- A second application of preprocessing leaves these boolean columns with
`True`/`False` values, which match neither `'Yes'` nor `'No'` in the
`.map({...})` dictionary and hence all fall to `False`. -/
def forceBoolsFalse (t : Table) : Table :=
  t.map (fun e =>
    if e.1 == "Completed" || e.1 == "Timed Out"
    then (e.1, e.2.map (fun _ => Cell.boolean false)) else e)

/-- Modelled from the spec's words (refinement comparison only): strip
surrounding whitespace, then strip a SINGLE trailing comma. -/
def cleanNameSpec (s : String) : String :=
  let l := pyStrip s.data
  ⟨if l.getLast? = some ',' then l.dropLast else l⟩

/-! ### `create_summary_stats` (lines 72-90) -/

/-- The numeric contribution of a cell to `.sum()` (NaN is skipped). -/
def cellVal : Cell → ℚ
  | Cell.boolean b => if b then 1 else 0
  | Cell.num q => q
  | _ => 0

/-- `df[n].sum()` over the named column. -/
def colSum (t : Table) (n : String) : ℚ :=
  (((Table.getCol t n).getD []).map cellVal).sum

/-- The values `.mean()` averages: numbers and booleans, NaN skipped. -/
def numericVals (cs : List Cell) : List ℚ :=
  cs.filterMap (fun c =>
    match c with
    | Cell.num q => some q
    | Cell.boolean b => some (if b then 1 else 0)
    | _ => none)

/-- `series.mean()`: NaN (absent) when no value remains after skipping NaN. -/
def seriesMean (cs : List Cell) : Option ℚ :=
  if numericVals cs = [] then none
  else some ((numericVals cs).sum / (numericVals cs).length)

structure SummaryStats where
  total_translations : Nat
  completed_translations : ℚ
  timed_out_translations : ℚ
  completion_rate : ℚ
  timeout_rate : ℚ
  avg_score : Option ℚ
deriving DecidableEq, Repr

def create_summary_stats (df : Table) : SummaryStats :=
  let total_translations := df.nrows
  let completed_translations := if df.hasCol "Completed" then colSum df "Completed" else 0
  let timed_out_translations := if df.hasCol "Timed Out" then colSum df "Timed Out" else 0
  { total_translations := total_translations
    completed_translations := completed_translations
    timed_out_translations := timed_out_translations
    completion_rate :=
      if 0 < total_translations then completed_translations / total_translations * 100 else 0
    timeout_rate :=
      if 0 < total_translations then timed_out_translations / total_translations * 100 else 0
    avg_score :=
      if df.hasCol "Translation Score" then seriesMean ((df.getCol "Translation Score").getD [])
      else some 0 }

/-! ### `create_direction_analysis` (lines 92-112) -/

/-- Python `round(·, k)`: round half to even at the k-th decimal. -/
def roundHalfEven (q : ℚ) : ℤ :=
  let f := ⌊q⌋
  if q - f < 1 / 2 then f
  else if 1 / 2 < q - f then f + 1
  else if 2 ∣ f then f else f + 1

def roundTo (k : ℕ) (q : ℚ) : ℚ := (roundHalfEven (q * 10 ^ k) : ℚ) / 10 ^ k

structure DirStat where
  direction : Cell
  total : Nat
  completed : ℚ
  timed_out : ℚ
  completion_rate : ℚ
  timeout_rate : ℚ
  avg_score : ℚ
deriving DecidableEq, Repr

/-- One row of the per-direction table (loop body, lines 96-110). -/
def dirStatOf (t : Table) (dirs : List Cell) (d : Cell) : DirStat :=
  let g := t.filterMask (dirs.map (fun c => decide (c = d)))
  let total := g.nrows
  let completed := if g.hasCol "Completed" then colSum g "Completed" else 0
  let timed_out := if g.hasCol "Timed Out" then colSum g "Timed Out" else 0
  let avg := if g.hasCol "Translation Score"
    then seriesMean ((g.getCol "Translation Score").getD []) else some 0
  { direction := d
    total := total
    completed := completed
    timed_out := timed_out
    completion_rate := if 0 < total then roundTo 1 (completed / total * 100) else 0
    timeout_rate := if 0 < total then roundTo 1 (timed_out / total * 100) else 0
    avg_score := match avg with | some q => roundTo 2 q | none => 0 }

/-- `df.groupby(col)` keys: distinct non-NaN values (key order is
immaterial to every property below). -/
def groupKeys (cs : List Cell) : List Cell :=
  (cs.filter (fun c => decide (c ≠ Cell.absent))).dedup

def create_direction_analysis (t : Table) : List DirStat :=
  let dirs := (Table.getCol t "Translation Direction").getD []
  (groupKeys dirs).map (dirStatOf t dirs)

/-! ### The date-range filter (main, lines 174-179) -/

/-- `(row.Timestamp.dt.date >= lo) & (row.Timestamp.dt.date <= hi)`:
NaT compares false on both sides. -/
def dateKeep (lo hi : ℤ) (c : Cell) : Bool :=
  match c with
  | Cell.time z => decide (lo ≤ dateOf z) && decide (dateOf z ≤ hi)
  | _ => false

def dateMask (t : Table) (lo hi : ℤ) : List Bool :=
  ((Table.getCol t "Timestamp").getD []).map (dateKeep lo hi)

/-- `df = df[(df['Timestamp'].dt.date >= start) & (df['Timestamp'].dt.date <= end)]`. -/
def apply_date_filter (t : Table) (lo hi : ℤ) : Table :=
  t.filterMask (dateMask t lo hi)

/-! ### `load_data_from_file` (lines 16-24)

`pd.read_csv` is external; its outcome is the parameter: either a parse
error (the message) or the raw table. -/

def load_data_from_file (pt : String → Option ℤ) (pn : String → Option ℚ)
    (readResult : Except String Table) : Option Table :=
  match readResult with
  | Except.ok df => preprocess_data pt pn df
  | Except.error _ => none

/-! ### Predicates used to state the verified properties -/

/-- Every cell of every column called `n` satisfies `Q`. -/
def ColPred (n : String) (Q : Cell → Prop) (t : Table) : Prop :=
  ∀ e ∈ t, e.1 = n → ∀ c ∈ e.2, Q c

/-- Every column called `n` holds exactly the cells `v`. -/
def ColEq (n : String) (v : List Cell) (t : Table) : Prop :=
  ∀ e ∈ t, e.1 = n → e.2 = v

/-- Every column name is a fixed point of the cleaning function. -/
def NamesFixed (t : Table) : Prop :=
  ∀ e ∈ t, cleanName e.1 = e.1

/-- The named column, when present, holds only boolean cells. -/
def boolCells (t : Table) (n : String) : Prop :=
  ∀ c ∈ (Table.getCol t n).getD [], ∃ b, c = Cell.boolean b

instance decCellIsBool (c : Cell) : Decidable (∃ b, c = Cell.boolean b) :=
  match c with
  | Cell.boolean b => isTrue ⟨b, rfl⟩
  | Cell.absent => isFalse (by rintro ⟨b, h⟩; cases h)
  | Cell.str s => isFalse (by rintro ⟨b, h⟩; cases h)
  | Cell.num q => isFalse (by rintro ⟨b, h⟩; cases h)
  | Cell.time z => isFalse (by rintro ⟨b, h⟩; cases h)
  | Cell.date d => isFalse (by rintro ⟨b, h⟩; cases h)

instance decWf (t : Table) : Decidable t.wf :=
  inferInstanceAs (Decidable (∀ e ∈ t, e.2.length = t.nrows))

instance decBoolCells (t : Table) (n : String) : Decidable (boolCells t n) :=
  inferInstanceAs
    (Decidable (∀ c ∈ (Table.getCol t n).getD [], ∃ b, c = Cell.boolean b))

/-- The list of column names, in column order. -/
def Table.colNames (t : Table) : List String := t.map Prod.fst

/-- A trivial timestamp parser (recognises nothing), for concrete runs. -/
def ptNone : String → Option ℤ := fun _ => none

/-- A trivial numeric parser (recognises nothing), for concrete runs. -/
def pnNone : String → Option ℚ := fun _ => none

/-! ## Lemmas about the table primitives -/

theorem Table.getCol_cons (e : String × List Cell) (t : Table) (n : String) :
    Table.getCol (e :: t) n = if e.1 = n then some e.2 else Table.getCol t n := by
  by_cases h : e.1 = n
  · have hb : (e.1 == n) = true := by simpa using h
    simp [Table.getCol, List.find?_cons, hb, h]
  · have hb : (e.1 == n) = false := by simpa using h
    simp [Table.getCol, List.find?_cons, hb, h]

theorem Table.hasCol_cons (e : String × List Cell) (t : Table) (n : String) :
    Table.hasCol (e :: t) n = ((e.1 == n) || Table.hasCol t n) := by
  unfold Table.hasCol
  rw [List.any_cons]

theorem Table.updCol_cons (e : String × List Cell) (t : Table) (m : String)
    (g : List Cell → List Cell) :
    Table.updCol (e :: t) m g =
      (if e.1 = m then (e.1, g e.2) else e) :: Table.updCol t m g := by
  unfold Table.updCol
  rw [List.map_cons]
  by_cases h : e.1 = m <;> simp [h]

theorem Table.hasCol_updCol (t : Table) (m : String) (g : List Cell → List Cell)
    (n : String) : (t.updCol m g).hasCol n = t.hasCol n := by
  induction t with
  | nil => rfl
  | cons e rest ih =>
    rw [Table.updCol_cons, Table.hasCol_cons, Table.hasCol_cons, ih]
    by_cases h : e.1 = m <;> simp [h]

theorem Table.hasCol_mapColIf (t : Table) (m : String) (f : Cell → Cell)
    (n : String) : (t.mapColIf m f).hasCol n = t.hasCol n := by
  unfold Table.mapColIf
  split
  · exact Table.hasCol_updCol t m _ n
  · rfl

theorem Table.getCol_updCol_ne (t : Table) {m n : String} (h : m ≠ n)
    (g : List Cell → List Cell) : (t.updCol m g).getCol n = t.getCol n := by
  induction t with
  | nil => rfl
  | cons e rest ih =>
    rw [Table.updCol_cons, Table.getCol_cons, Table.getCol_cons, ih]
    by_cases hm : e.1 = m
    · have hn : ¬ e.1 = n := fun hh => h (hm ▸ hh)
      simp [hm, hn, h]
    · simp [hm]

theorem Table.getCol_updCol_self (t : Table) (n : String)
    (g : List Cell → List Cell) : (t.updCol n g).getCol n = (t.getCol n).map g := by
  induction t with
  | nil => rfl
  | cons e rest ih =>
    rw [Table.updCol_cons, Table.getCol_cons, Table.getCol_cons, ih]
    by_cases hn : e.1 = n <;> simp [hn]

theorem Table.hasCol_iff_getCol (t : Table) (n : String) :
    t.hasCol n = true ↔ ∃ cs, t.getCol n = some cs := by
  induction t with
  | nil => simp [Table.hasCol, Table.getCol]
  | cons e rest ih =>
    rw [Table.hasCol_cons, Table.getCol_cons]
    by_cases hn : e.1 = n <;> simp [hn, ih]

theorem Table.getCol_eq_none (t : Table) (n : String) (h : t.hasCol n = false) :
    t.getCol n = none := by
  cases hg : t.getCol n with
  | none => rfl
  | some cs =>
    rw [(Table.hasCol_iff_getCol t n).2 ⟨cs, hg⟩] at h
    cases h

theorem Table.hasCol_putCol (t : Table) (m : String) (cs : List Cell) (n : String) :
    (t.putCol m cs).hasCol n = (t.hasCol n || m == n) := by
  unfold Table.putCol
  by_cases h : t.hasCol m
  · rw [if_pos h, Table.hasCol_updCol]
    by_cases hmn : m = n
    · subst hmn; simp [h]
    · simp [hmn]
  · rw [if_neg h]
    unfold Table.hasCol
    rw [List.any_append]
    simp

theorem Table.getCol_putCol_ne (t : Table) {m n : String} (h : m ≠ n) (cs : List Cell) :
    (t.putCol m cs).getCol n = t.getCol n := by
  unfold Table.putCol
  by_cases hp : t.hasCol m
  · rw [if_pos hp, Table.getCol_updCol_ne t h]
  · rw [if_neg hp]
    unfold Table.getCol
    rw [List.find?_append]
    have h2 : List.find? (fun e => e.1 == n) [(m, cs)] = none := by
      simp [List.find?_cons, h]
    rw [h2, Option.or_none]

theorem Table.getCol_putCol_self (t : Table) (n : String) (cs : List Cell) :
    (t.putCol n cs).getCol n = some cs := by
  unfold Table.putCol
  by_cases hp : t.hasCol n
  · rw [if_pos hp, Table.getCol_updCol_self]
    rcases (Table.hasCol_iff_getCol t n).1 hp with ⟨cs', hcs'⟩
    rw [hcs']
    rfl
  · rw [if_neg hp]
    unfold Table.getCol
    rw [List.find?_append]
    have h1 : List.find? (fun e => e.1 == n) t = none := by
      have h2 := Table.getCol_eq_none t n (by simpa using hp)
      unfold Table.getCol at h2
      exact Option.map_eq_none'.1 h2
    simp [h1, List.find?_cons]

theorem Table.getCol_filterMask (t : Table) (mask : List Bool) (n : String) :
    (t.filterMask mask).getCol n = (t.getCol n).map (maskCol mask) := by
  induction t with
  | nil => rfl
  | cons e rest ih =>
    show Table.getCol ((e.1, maskCol mask e.2) :: Table.filterMask rest mask) n = _
    rw [Table.getCol_cons, Table.getCol_cons, ih]
    by_cases hn : e.1 = n <;> simp [hn]

theorem Table.hasCol_filterMask (t : Table) (mask : List Bool) (n : String) :
    (t.filterMask mask).hasCol n = t.hasCol n := by
  induction t with
  | nil => rfl
  | cons e rest ih =>
    show Table.hasCol ((e.1, maskCol mask e.2) :: Table.filterMask rest mask) n = _
    rw [Table.hasCol_cons, Table.hasCol_cons, ih]

theorem Table.colNames_updCol (t : Table) (m : String) (g : List Cell → List Cell) :
    (t.updCol m g).colNames = t.colNames := by
  induction t with
  | nil => rfl
  | cons e rest ih =>
    rw [Table.updCol_cons]
    show _ :: (Table.updCol rest m g).colNames = _
    rw [ih]
    by_cases h : e.1 = m <;> simp [h, Table.colNames]

theorem Table.colNames_putCol (t : Table) (m : String) (cs : List Cell) :
    (t.putCol m cs).colNames = t.colNames ∨
      (t.putCol m cs).colNames = t.colNames ++ [m] := by
  unfold Table.putCol
  by_cases h : t.hasCol m
  · left; rw [if_pos h, Table.colNames_updCol]
  · right; rw [if_neg h]; simp [Table.colNames]

theorem Table.colNames_renameCols (t : Table) (f : String → String) :
    (t.renameCols f).colNames = t.colNames.map f := by
  simp [Table.renameCols, Table.colNames, List.map_map, Function.comp]

theorem Table.mem_updCol {e : String × List Cell} (t : Table) (m : String)
    (g : List Cell → List Cell) :
    e ∈ t.updCol m g ↔ ∃ e0, e0 ∈ t ∧ e = if e0.1 = m then (e0.1, g e0.2) else e0 := by
  unfold Table.updCol
  rw [List.mem_map]
  constructor
  · rintro ⟨e0, h0, rfl⟩
    exact ⟨e0, h0, by by_cases h : e0.1 = m <;> simp [h]⟩
  · rintro ⟨e0, h0, rfl⟩
    exact ⟨e0, h0, by by_cases h : e0.1 = m <;> simp [h]⟩

theorem Table.not_hasCol_forall (t : Table) (n : String) (h : t.hasCol n = false) :
    ∀ e ∈ t, e.1 ≠ n := by
  intro e he
  unfold Table.hasCol at h
  have h2 := List.any_eq_false.1 h e he
  simpa using h2

/-! ### Row counts and well-formedness preservation -/

theorem Table.nrows_updCol_map (t : Table) (m : String) (f : Cell → Cell) :
    (t.updCol m (List.map f)).nrows = t.nrows := by
  cases t with
  | nil => rfl
  | cons e rest =>
    rw [Table.updCol_cons]
    by_cases h : e.1 = m <;> simp [h, Table.nrows]

theorem Table.wf_updCol_map (t : Table) (m : String) (f : Cell → Cell)
    (h : t.wf) : (t.updCol m (List.map f)).wf := by
  intro e he
  rw [Table.nrows_updCol_map]
  rcases (Table.mem_updCol t m (List.map f)).1 he with ⟨e0, h0, rfl⟩
  by_cases hm : e0.1 = m
  · simpa [hm] using h e0 h0
  · simpa [hm] using h e0 h0

theorem Table.nrows_renameCols (t : Table) (f : String → String) :
    (t.renameCols f).nrows = t.nrows := by
  cases t <;> rfl

theorem Table.wf_renameCols (t : Table) (f : String → String) (h : t.wf) :
    (t.renameCols f).wf := by
  intro e he
  rw [Table.nrows_renameCols]
  rcases List.mem_map.1 he with ⟨e0, h0, rfl⟩
  exact h e0 h0

theorem Table.nrows_putCol (t : Table) (n : String) (cs : List Cell)
    (hcs : cs.length = t.nrows) : (t.putCol n cs).nrows = t.nrows := by
  unfold Table.putCol
  by_cases h : t.hasCol n
  · rw [if_pos h]
    cases t with
    | nil => rfl
    | cons e rest =>
      rw [Table.updCol_cons]
      by_cases he : e.1 = n <;> simp_all [Table.nrows]
  · rw [if_neg h]
    cases t with
    | nil => simpa [Table.nrows] using hcs
    | cons e rest => rfl

theorem Table.wf_putCol (t : Table) (n : String) (cs : List Cell)
    (h : t.wf) (hcs : cs.length = t.nrows) : (t.putCol n cs).wf := by
  intro e he
  rw [Table.nrows_putCol t n cs hcs]
  unfold Table.putCol at he
  by_cases hp : t.hasCol n
  · rw [if_pos hp] at he
    rcases (Table.mem_updCol t n _).1 he with ⟨e0, h0, rfl⟩
    by_cases hn : e0.1 = n
    · simpa [hn] using hcs
    · simpa [hn] using h e0 h0
  · rw [if_neg hp] at he
    rcases List.mem_append.1 he with h0 | h0
    · exact h e h0
    · rcases List.mem_singleton.1 h0 with rfl
      exact hcs

theorem Table.nrows_mapColIf (t : Table) (n : String) (f : Cell → Cell) :
    (t.mapColIf n f).nrows = t.nrows := by
  unfold Table.mapColIf
  split
  · exact Table.nrows_updCol_map t n f
  · rfl

theorem Table.wf_mapColIf (t : Table) (n : String) (f : Cell → Cell) (h : t.wf) :
    (t.mapColIf n f).wf := by
  unfold Table.mapColIf
  split
  · exact Table.wf_updCol_map t n f h
  · exact h

theorem Table.length_getCol (t : Table) (n : String) {cs : List Cell}
    (h : t.wf) (hg : t.getCol n = some cs) : cs.length = t.nrows := by
  unfold Table.getCol at hg
  rcases Option.map_eq_some'.1 hg with ⟨e, hfind, rfl⟩
  exact h e (List.mem_of_find?_eq_some hfind)

/-! ### Predicate preservation -/

theorem ColPred_updCol_ne {m n : String} (h : m ≠ n) {Q : Cell → Prop} {t : Table}
    (hp : ColPred n Q t) (g : List Cell → List Cell) : ColPred n Q (t.updCol m g) := by
  intro e he hn
  rcases (Table.mem_updCol t m g).1 he with ⟨e0, h0, rfl⟩
  by_cases hm : e0.1 = m
  · rw [if_pos hm] at hn ⊢
    exact absurd (hm ▸ hn : m = n) h
  · rw [if_neg hm] at hn ⊢
    exact hp e0 h0 hn

theorem ColPred_updCol_self {n : String} {Q : Cell → Prop} {f : Cell → Cell}
    (hf : ∀ c, Q (f c)) (t : Table) : ColPred n Q (t.updCol n (List.map f)) := by
  intro e he hn
  rcases (Table.mem_updCol t n (List.map f)).1 he with ⟨e0, h0, rfl⟩
  by_cases hm : e0.1 = n
  · rw [if_pos hm]
    intro c hc
    rcases List.mem_map.1 hc with ⟨c0, -, rfl⟩
    exact hf c0
  · rw [if_neg hm] at hn
    exact absurd hn hm

theorem ColPred_putCol_ne {m n : String} (h : m ≠ n) {Q : Cell → Prop} {t : Table}
    (hp : ColPred n Q t) (cs : List Cell) : ColPred n Q (t.putCol m cs) := by
  unfold Table.putCol
  split
  · exact ColPred_updCol_ne h hp _
  · intro e he hn
    rcases List.mem_append.1 he with h0 | h0
    · exact hp e h0 hn
    · rcases List.mem_singleton.1 h0 with rfl
      exact absurd hn h

theorem ColPred_mapColIf_ne {m n : String} (h : m ≠ n) {Q : Cell → Prop} {t : Table}
    (hp : ColPred n Q t) (f : Cell → Cell) : ColPred n Q (t.mapColIf m f) := by
  unfold Table.mapColIf
  split
  · exact ColPred_updCol_ne h hp _
  · exact hp

theorem ColPred_mapColIf_self {n : String} {Q : Cell → Prop} {f : Cell → Cell}
    (hf : ∀ c, Q (f c)) {t : Table} (hp : ColPred n Q t) :
    ColPred n Q (t.mapColIf n f) := by
  unfold Table.mapColIf
  split
  · exact ColPred_updCol_self hf t
  · exact hp

theorem ColPred_putCol_self {n : String} {Q : Cell → Prop} {t : Table}
    (hcs : ∀ c ∈ cs, Q c) (hp : ColPred n Q t) : ColPred n Q (t.putCol n cs) := by
  unfold Table.putCol
  split
  · intro e he hn
    rcases (Table.mem_updCol t n _).1 he with ⟨e0, h0, rfl⟩
    by_cases hm : e0.1 = n
    · rw [if_pos hm]
      exact hcs
    · rw [if_neg hm] at hn
      exact absurd hn hm
  · intro e he hn
    rcases List.mem_append.1 he with h0 | h0
    · exact hp e h0 hn
    · rcases List.mem_singleton.1 h0 with rfl
      exact hcs

theorem getCol_prop_of_ColPred {n : String} {Q : Cell → Prop} {t : Table}
    (hp : ColPred n Q t) {cs : List Cell} (hg : t.getCol n = some cs) :
    ∀ c ∈ cs, Q c := by
  unfold Table.getCol at hg
  rcases Option.map_eq_some'.1 hg with ⟨e, hfind, rfl⟩
  exact hp e (List.mem_of_find?_eq_some hfind) (by simpa using List.find?_some hfind)

theorem ColEq_updCol_ne {m n : String} (h : m ≠ n) {v : List Cell} {t : Table}
    (hp : ColEq n v t) (g : List Cell → List Cell) : ColEq n v (t.updCol m g) := by
  intro e he hn
  rcases (Table.mem_updCol t m g).1 he with ⟨e0, h0, rfl⟩
  by_cases hm : e0.1 = m
  · rw [if_pos hm] at hn ⊢
    exact absurd (hm ▸ hn : m = n) h
  · rw [if_neg hm] at hn ⊢
    exact hp e0 h0 hn

theorem ColEq_mapColIf_ne {m n : String} (h : m ≠ n) {v : List Cell} {t : Table}
    (hp : ColEq n v t) (f : Cell → Cell) : ColEq n v (t.mapColIf m f) := by
  unfold Table.mapColIf
  split
  · exact ColEq_updCol_ne h hp _
  · exact hp

theorem ColEq_putCol_ne {m n : String} (h : m ≠ n) {v : List Cell} {t : Table}
    (hp : ColEq n v t) (cs : List Cell) : ColEq n v (t.putCol m cs) := by
  unfold Table.putCol
  split
  · exact ColEq_updCol_ne h hp _
  · intro e he hn
    rcases List.mem_append.1 he with h0 | h0
    · exact hp e h0 hn
    · rcases List.mem_singleton.1 h0 with rfl
      exact absurd hn h

theorem ColEq_putCol_self {n : String} {t : Table} (cs : List Cell) :
    ColEq n cs (t.putCol n cs) := by
  unfold Table.putCol
  by_cases hp : t.hasCol n
  · rw [if_pos hp]
    intro e he hn
    rcases (Table.mem_updCol t n _).1 he with ⟨e0, h0, rfl⟩
    by_cases hm : e0.1 = n
    · rw [if_pos hm]
    · rw [if_neg hm] at hn
      exact absurd hn hm
  · rw [if_neg hp]
    intro e he hn
    rcases List.mem_append.1 he with h0 | h0
    · exact absurd hn (Table.not_hasCol_forall t n (by simpa using hp) e h0)
    · rcases List.mem_singleton.1 h0 with rfl
      rfl

theorem getCol_of_ColEq {n : String} {v : List Cell} {t : Table}
    (hp : ColEq n v t) {cs : List Cell} (hg : t.getCol n = some cs) : cs = v := by
  unfold Table.getCol at hg
  rcases Option.map_eq_some'.1 hg with ⟨e, hfind, rfl⟩
  exact hp e (List.mem_of_find?_eq_some hfind) (by simpa using List.find?_some hfind)

/-! ### Identity lemmas for a second preprocessing pass -/

theorem Table.updCol_eq_self {n : String} {g : List Cell → List Cell} {t : Table}
    (h : ∀ e ∈ t, e.1 = n → g e.2 = e.2) : t.updCol n g = t := by
  induction t with
  | nil => rfl
  | cons e rest ih =>
    rw [Table.updCol_cons]
    by_cases hn : e.1 = n
    · rw [if_pos hn, h e (List.mem_cons_self e rest) hn,
        ih (fun e' he' => h e' (List.mem_cons_of_mem e he'))]
    · rw [if_neg hn, ih (fun e' he' => h e' (List.mem_cons_of_mem e he'))]

theorem Table.mapColIf_eq_self {n : String} {f : Cell → Cell} {t : Table}
    (h : ColPred n (fun c => f c = c) t) : t.mapColIf n f = t := by
  unfold Table.mapColIf
  split
  · apply Table.updCol_eq_self
    intro e he hn
    rw [List.map_congr_left (fun c hc => h e he hn c hc)]
    simp
  · rfl

theorem Table.mapColIf_eq_of_ColPred {n : String} {f g : Cell → Cell} {t : Table}
    (h : ColPred n (fun c => f c = g c) t) : t.mapColIf n f = t.mapColIf n g := by
  unfold Table.mapColIf
  split
  · unfold Table.updCol
    apply List.map_congr_left
    intro e he
    by_cases hn : e.1 = n
    · have hb : (e.1 == n) = true := by simpa using hn
      rw [hb]
      simp only [if_true]
      rw [List.map_congr_left (fun c hc => h e he hn c hc)]
    · have hb : (e.1 == n) = false := by simpa using hn
      rw [hb]
      simp
  · rfl

theorem Table.putCol_eq_self {n : String} {cs : List Cell} {t : Table}
    (hp : t.hasCol n = true) (h : ColEq n cs t) : t.putCol n cs = t := by
  unfold Table.putCol
  rw [if_pos hp]
  exact Table.updCol_eq_self (fun e he hn => (h e he hn).symm)

theorem Table.renameCols_eq_self {t : Table} (h : NamesFixed t) :
    t.renameCols cleanName = t := by
  induction t with
  | nil => rfl
  | cons e rest ih =>
    unfold Table.renameCols at *
    rw [List.map_cons, h e (List.mem_cons_self e rest),
      ih (fun e' he' => h e' (List.mem_cons_of_mem e he'))]

theorem NamesFixed_updCol {t : Table} (h : NamesFixed t) (m : String)
    (g : List Cell → List Cell) : NamesFixed (t.updCol m g) := by
  intro e he
  rcases (Table.mem_updCol t m g).1 he with ⟨e0, h0, rfl⟩
  by_cases hm : e0.1 = m
  · rw [if_pos hm]
    exact h e0 h0
  · rw [if_neg hm]
    exact h e0 h0

theorem NamesFixed_mapColIf {t : Table} (h : NamesFixed t) (m : String)
    (f : Cell → Cell) : NamesFixed (t.mapColIf m f) := by
  unfold Table.mapColIf
  split
  · exact NamesFixed_updCol h m _
  · exact h

theorem NamesFixed_putCol {t : Table} (h : NamesFixed t) {m : String}
    (hm : cleanName m = m) (cs : List Cell) : NamesFixed (t.putCol m cs) := by
  unfold Table.putCol
  split
  · exact NamesFixed_updCol h m _
  · intro e he
    rcases List.mem_append.1 he with h0 | h0
    · exact h e h0
    · rcases List.mem_singleton.1 h0 with rfl
      exact hm

/-! ### tsBlock and dirBlock facts -/

theorem Table.getCol_mapColIf_ne {m n : String} (h : m ≠ n) (f : Cell → Cell)
    (t : Table) : (t.mapColIf m f).getCol n = t.getCol n := by
  unfold Table.mapColIf
  split
  · exact Table.getCol_updCol_ne t h _
  · rfl

theorem tsBlock_eq_pos (pt : String → Option ℤ) {t : Table}
    (hts : t.hasCol "Timestamp" = true) :
    tsBlock pt t =
      ((t.mapColIf "Timestamp" (toDatetime pt)).putCol "Hour"
        ((((t.mapColIf "Timestamp" (toDatetime pt)).getCol "Timestamp").getD
          []).map hourCell)).putCol "Date"
        ((((t.mapColIf "Timestamp" (toDatetime pt)).getCol "Timestamp").getD
          []).map dateCell) := by
  unfold tsBlock
  rw [if_pos hts]

theorem tsBlock_eq_neg (pt : String → Option ℤ) {t : Table}
    (hts : t.hasCol "Timestamp" = false) : tsBlock pt t = t := by
  unfold tsBlock
  rw [if_neg (by simp [hts])]

theorem Table.getCol_tsBlock_ne {n : String} (h1 : n ≠ "Timestamp") (h2 : n ≠ "Hour")
    (h3 : n ≠ "Date") (pt : String → Option ℤ) (t : Table) :
    (tsBlock pt t).getCol n = t.getCol n := by
  by_cases hts : t.hasCol "Timestamp"
  · rw [tsBlock_eq_pos pt hts, Table.getCol_putCol_ne _ (Ne.symm h3),
      Table.getCol_putCol_ne _ (Ne.symm h2), Table.getCol_mapColIf_ne (Ne.symm h1)]
  · rw [tsBlock_eq_neg pt (by simpa using hts)]

theorem Table.hasCol_tsBlock_ne {n : String} (h2 : n ≠ "Hour") (h3 : n ≠ "Date")
    (pt : String → Option ℤ) (t : Table) :
    (tsBlock pt t).hasCol n = t.hasCol n := by
  by_cases hts : t.hasCol "Timestamp"
  · rw [tsBlock_eq_pos pt hts, Table.hasCol_putCol, Table.hasCol_putCol,
      Table.hasCol_mapColIf]
    have hb2 : (("Hour" : String) == n) = false := by simpa using (Ne.symm h2)
    have hb3 : (("Date" : String) == n) = false := by simpa using (Ne.symm h3)
    rw [hb2, hb3, Bool.or_false, Bool.or_false]
  · rw [tsBlock_eq_neg pt (by simpa using hts)]

theorem ColPred_tsBlock_ne {n : String} (h1 : n ≠ "Timestamp") (h2 : n ≠ "Hour")
    (h3 : n ≠ "Date") {Q : Cell → Prop} {t : Table} (hp : ColPred n Q t)
    (pt : String → Option ℤ) : ColPred n Q (tsBlock pt t) := by
  by_cases hts : t.hasCol "Timestamp"
  · rw [tsBlock_eq_pos pt hts]
    exact ColPred_putCol_ne (Ne.symm h3) (ColPred_putCol_ne (Ne.symm h2)
      (ColPred_mapColIf_ne (Ne.symm h1) hp _) _) _
  · rw [tsBlock_eq_neg pt (by simpa using hts)]
    exact hp

theorem ColEq_tsBlock_ne {n : String} (h1 : n ≠ "Timestamp") (h2 : n ≠ "Hour")
    (h3 : n ≠ "Date") {v : List Cell} {t : Table} (hp : ColEq n v t)
    (pt : String → Option ℤ) : ColEq n v (tsBlock pt t) := by
  by_cases hts : t.hasCol "Timestamp"
  · rw [tsBlock_eq_pos pt hts]
    exact ColEq_putCol_ne (Ne.symm h3) (ColEq_putCol_ne (Ne.symm h2)
      (ColEq_mapColIf_ne (Ne.symm h1) hp _) _) _
  · rw [tsBlock_eq_neg pt (by simpa using hts)]
    exact hp

theorem NamesFixed_tsBlock {t : Table} (h : NamesFixed t) (pt : String → Option ℤ) :
    NamesFixed (tsBlock pt t) := by
  by_cases hts : t.hasCol "Timestamp"
  · rw [tsBlock_eq_pos pt hts]
    exact NamesFixed_putCol (NamesFixed_putCol (NamesFixed_mapColIf h _ _)
      (by decide) _) (by decide) _
  · rw [tsBlock_eq_neg pt (by simpa using hts)]
    exact h

theorem Table.wf_nrows_tsBlock (pt : String → Option ℤ) {t : Table} (h : t.wf) :
    (tsBlock pt t).wf ∧ (tsBlock pt t).nrows = t.nrows := by
  by_cases hts : t.hasCol "Timestamp"
  · rw [tsBlock_eq_pos pt hts]
    have hw1 : (t.mapColIf "Timestamp" (toDatetime pt)).wf := Table.wf_mapColIf t _ _ h
    have hn1 : (t.mapColIf "Timestamp" (toDatetime pt)).nrows = t.nrows :=
      Table.nrows_mapColIf t _ _
    set t1 := t.mapColIf "Timestamp" (toDatetime pt) with ht1
    have hts1 : t1.hasCol "Timestamp" = true := by
      rw [ht1, Table.hasCol_mapColIf]; exact hts
    rcases (Table.hasCol_iff_getCol t1 "Timestamp").1 hts1 with ⟨ts, hgts⟩
    have hlts : ts.length = t1.nrows := Table.length_getCol t1 "Timestamp" hw1 hgts
    rw [hgts]
    simp only [Option.getD_some]
    have hlh : (ts.map hourCell).length = t1.nrows := by
      rw [List.length_map]; exact hlts
    have hw2 : (t1.putCol "Hour" (ts.map hourCell)).wf := Table.wf_putCol t1 _ _ hw1 hlh
    have hn2 : (t1.putCol "Hour" (ts.map hourCell)).nrows = t1.nrows :=
      Table.nrows_putCol t1 _ _ hlh
    set t2 := t1.putCol "Hour" (ts.map hourCell) with ht2
    have hld : (ts.map dateCell).length = t2.nrows := by
      rw [List.length_map, hn2]; exact hlts
    exact ⟨Table.wf_putCol t2 _ _ hw2 hld,
      by rw [Table.nrows_putCol t2 _ _ hld, hn2, hn1]⟩
  · rw [tsBlock_eq_neg pt (by simpa using hts)]
    exact ⟨h, rfl⟩

theorem Table.getCol_dirBlock_ne {n : String} (h : n ≠ "Translation Direction")
    (t : Table) : (dirBlock t).getCol n = t.getCol n := by
  unfold dirBlock
  rw [Table.getCol_putCol_ne _ (Ne.symm h)]

theorem Table.getCol_dirBlock_self (t : Table) :
    (dirBlock t).getCol "Translation Direction" =
      some ((((t.getCol "From").getD []).zip ((t.getCol "To").getD [])).map mkDirection) := by
  unfold dirBlock
  rw [Table.getCol_putCol_self]

theorem Table.wf_nrows_dirBlock {t : Table} (h : t.wf)
    (hF : t.hasCol "From" = true) (hT : t.hasCol "To" = true) :
    (dirBlock t).wf ∧ (dirBlock t).nrows = t.nrows := by
  unfold dirBlock
  rcases (Table.hasCol_iff_getCol t "From").1 hF with ⟨fs, hfs⟩
  rcases (Table.hasCol_iff_getCol t "To").1 hT with ⟨ts, hts⟩
  have hlen : ((((t.getCol "From").getD []).zip ((t.getCol "To").getD [])).map
      mkDirection).length = t.nrows := by
    rw [hfs, hts]
    simp only [Option.getD_some, List.length_map, List.length_zip]
    rw [Table.length_getCol t "From" h hfs, Table.length_getCol t "To" h hts]
    exact Nat.min_self _
  exact ⟨Table.wf_putCol t _ _ h hlen, Table.nrows_putCol t _ _ hlen⟩

/-! ### Characterisation of preprocess_data -/

theorem preprocess_data_eq (pt : String → Option ℤ) (pn : String → Option ℚ)
    (df : Table) :
    preprocess_data pt pn df =
      (if ((df.renameCols cleanName).hasCol "From" &&
           ((df.renameCols cleanName).hasCol "To" &&
            (df.renameCols cleanName).hasCol "Status")) = true
       then some (preprocessSteps pt pn (df.renameCols cleanName)) else none) := by
  unfold preprocess_data preprocessSteps Table.mapCol
  by_cases h1 : (df.renameCols cleanName).hasCol "From"
  · by_cases h2 : (df.renameCols cleanName).hasCol "To"
    · by_cases h3 : (df.renameCols cleanName).hasCol "Status"
      · simp [h1, h2, h3, Table.hasCol_updCol]
      · simp [h1, h2, h3, Table.hasCol_updCol]
    · simp [h1, h2, Table.hasCol_updCol]
  · simp [h1]

/-! ### Column-level description of one preprocessing pass -/

theorem getD_listMap (o : Option (List Cell)) (f : Cell → Cell) :
    (o.map (List.map f)).getD [] = (o.getD []).map f := by
  cases o <;> rfl

theorem Table.getCol_mapColIf_self (t : Table) (n : String) (f : Cell → Cell) :
    (t.mapColIf n f).getCol n = (t.getCol n).map (List.map f) := by
  unfold Table.mapColIf
  split
  · exact Table.getCol_updCol_self t n _
  · rename_i h
    rw [Table.getCol_eq_none t n (by simpa using h)]
    rfl

theorem Table.getCol_tsBlock_timestamp (pt : String → Option ℤ) (t : Table) :
    (tsBlock pt t).getCol "Timestamp" =
      (t.getCol "Timestamp").map (List.map (toDatetime pt)) := by
  by_cases hts : t.hasCol "Timestamp"
  · rw [tsBlock_eq_pos pt hts, Table.getCol_putCol_ne _ (by decide),
      Table.getCol_putCol_ne _ (by decide), Table.getCol_mapColIf_self]
  · rw [tsBlock_eq_neg pt (by simpa using hts),
      Table.getCol_eq_none t _ (by simpa using hts)]
    rfl

theorem tsBlock_hour_date (pt : String → Option ℤ) (t : Table)
    (hts : t.hasCol "Timestamp" = true) :
    ColEq "Hour" ((((t.getCol "Timestamp").getD []).map (toDatetime pt)).map hourCell)
        (tsBlock pt t) ∧
      ColEq "Date" ((((t.getCol "Timestamp").getD []).map (toDatetime pt)).map dateCell)
        (tsBlock pt t) := by
  rw [tsBlock_eq_pos pt hts]
  have hg : ((t.mapColIf "Timestamp" (toDatetime pt)).getCol "Timestamp").getD [] =
      ((t.getCol "Timestamp").getD []).map (toDatetime pt) := by
    rw [Table.getCol_mapColIf_self, getD_listMap]
  constructor
  · rw [← hg]
    exact ColEq_putCol_ne (by decide) (ColEq_putCol_self _) _
  · rw [← hg]
    exact ColEq_putCol_self _

theorem hasCol_dirBlock (t : Table) (n : String) :
    (dirBlock t).hasCol n = (t.hasCol n || ("Translation Direction" == n)) := by
  unfold dirBlock
  rw [Table.hasCol_putCol]

theorem hasCol_preprocessSteps_ne (pt : String → Option ℤ) (pn : String → Option ℚ)
    (tc : Table) {n : String} (h2 : n ≠ "Hour") (h3 : n ≠ "Date")
    (h4 : n ≠ "Translation Direction") :
    (preprocessSteps pt pn tc).hasCol n = tc.hasCol n := by
  have hb4 : (("Translation Direction" : String) == n) = false := by
    simpa using (Ne.symm h4)
  simp only [preprocessSteps]
  rw [hasCol_dirBlock, hb4, Bool.or_false, Table.hasCol_mapColIf,
    Table.hasCol_tsBlock_ne h2 h3, Table.hasCol_mapColIf, Table.hasCol_mapColIf,
    Table.hasCol_updCol, Table.hasCol_updCol, Table.hasCol_updCol]

theorem preprocessSteps_getCol (pt : String → Option ℤ) (pn : String → Option ℚ)
    (tc : Table) :
    ((preprocessSteps pt pn tc).getCol "From" =
        (tc.getCol "From").map (List.map (fillna (Cell.str "Unknown"))))
    ∧ ((preprocessSteps pt pn tc).getCol "To" =
        (tc.getCol "To").map (List.map (fillna (Cell.str "Unknown"))))
    ∧ ((preprocessSteps pt pn tc).getCol "Status" =
        (tc.getCol "Status").map (List.map (fillna (Cell.str "Unknown"))))
    ∧ ((preprocessSteps pt pn tc).getCol "Completed" =
        (tc.getCol "Completed").map (List.map yesNoFill))
    ∧ ((preprocessSteps pt pn tc).getCol "Timed Out" =
        (tc.getCol "Timed Out").map (List.map yesNoFill))
    ∧ ((preprocessSteps pt pn tc).getCol "Timestamp" =
        (tc.getCol "Timestamp").map (List.map (toDatetime pt)))
    ∧ ((preprocessSteps pt pn tc).getCol "Translation Score" =
        (tc.getCol "Translation Score").map (List.map (toNumeric pn))) := by
  simp only [preprocessSteps]
  refine ⟨?_, ?_, ?_, ?_, ?_, ?_, ?_⟩
  · rw [Table.getCol_dirBlock_ne (by decide), Table.getCol_mapColIf_ne (by decide),
      Table.getCol_tsBlock_ne (by decide) (by decide) (by decide),
      Table.getCol_mapColIf_ne (by decide), Table.getCol_mapColIf_ne (by decide),
      Table.getCol_updCol_ne _ (by decide), Table.getCol_updCol_ne _ (by decide),
      Table.getCol_updCol_self]
  · rw [Table.getCol_dirBlock_ne (by decide), Table.getCol_mapColIf_ne (by decide),
      Table.getCol_tsBlock_ne (by decide) (by decide) (by decide),
      Table.getCol_mapColIf_ne (by decide), Table.getCol_mapColIf_ne (by decide),
      Table.getCol_updCol_ne _ (by decide), Table.getCol_updCol_self,
      Table.getCol_updCol_ne _ (by decide)]
  · rw [Table.getCol_dirBlock_ne (by decide), Table.getCol_mapColIf_ne (by decide),
      Table.getCol_tsBlock_ne (by decide) (by decide) (by decide),
      Table.getCol_mapColIf_ne (by decide), Table.getCol_mapColIf_ne (by decide),
      Table.getCol_updCol_self, Table.getCol_updCol_ne _ (by decide),
      Table.getCol_updCol_ne _ (by decide)]
  · rw [Table.getCol_dirBlock_ne (by decide), Table.getCol_mapColIf_ne (by decide),
      Table.getCol_tsBlock_ne (by decide) (by decide) (by decide),
      Table.getCol_mapColIf_ne (by decide), Table.getCol_mapColIf_self,
      Table.getCol_updCol_ne _ (by decide), Table.getCol_updCol_ne _ (by decide),
      Table.getCol_updCol_ne _ (by decide)]
  · rw [Table.getCol_dirBlock_ne (by decide), Table.getCol_mapColIf_ne (by decide),
      Table.getCol_tsBlock_ne (by decide) (by decide) (by decide),
      Table.getCol_mapColIf_self, Table.getCol_mapColIf_ne (by decide),
      Table.getCol_updCol_ne _ (by decide), Table.getCol_updCol_ne _ (by decide),
      Table.getCol_updCol_ne _ (by decide)]
  · rw [Table.getCol_dirBlock_ne (by decide), Table.getCol_mapColIf_ne (by decide),
      Table.getCol_tsBlock_timestamp,
      Table.getCol_mapColIf_ne (by decide), Table.getCol_mapColIf_ne (by decide),
      Table.getCol_updCol_ne _ (by decide), Table.getCol_updCol_ne _ (by decide),
      Table.getCol_updCol_ne _ (by decide)]
  · rw [Table.getCol_dirBlock_ne (by decide), Table.getCol_mapColIf_self,
      Table.getCol_tsBlock_ne (by decide) (by decide) (by decide),
      Table.getCol_mapColIf_ne (by decide), Table.getCol_mapColIf_ne (by decide),
      Table.getCol_updCol_ne _ (by decide), Table.getCol_updCol_ne _ (by decide),
      Table.getCol_updCol_ne _ (by decide)]

theorem preprocessSteps_direction (pt : String → Option ℤ) (pn : String → Option ℚ)
    (tc : Table) :
    (preprocessSteps pt pn tc).getCol "Translation Direction" =
      some (((((preprocessSteps pt pn tc).getCol "From").getD []).zip
        (((preprocessSteps pt pn tc).getCol "To").getD [])).map mkDirection) := by
  conv_lhs => rw [preprocessSteps]
  rw [Table.getCol_dirBlock_self]
  have hF : (preprocessSteps pt pn tc).getCol "From" =
      ((tsBlock pt
        ((((tc.updCol "From" (List.map (fillna (Cell.str "Unknown")))).updCol "To"
          (List.map (fillna (Cell.str "Unknown")))).updCol "Status"
          (List.map (fillna (Cell.str "Unknown")))).mapColIf "Completed"
          yesNoFill |>.mapColIf "Timed Out" yesNoFill)).mapColIf "Translation Score"
          (toNumeric pn)).getCol "From" := by
    simp only [preprocessSteps]
    rw [Table.getCol_dirBlock_ne (by decide)]
  have hT : (preprocessSteps pt pn tc).getCol "To" =
      ((tsBlock pt
        ((((tc.updCol "From" (List.map (fillna (Cell.str "Unknown")))).updCol "To"
          (List.map (fillna (Cell.str "Unknown")))).updCol "Status"
          (List.map (fillna (Cell.str "Unknown")))).mapColIf "Completed"
          yesNoFill |>.mapColIf "Timed Out" yesNoFill)).mapColIf "Translation Score"
          (toNumeric pn)).getCol "To" := by
    simp only [preprocessSteps]
    rw [Table.getCol_dirBlock_ne (by decide)]
  rw [← hF, ← hT]

/-! ### wf, NamesFixed and cell-shape facts for a full pass -/

theorem wf_nrows_preprocessSteps (pt : String → Option ℤ) (pn : String → Option ℚ)
    {tc : Table} (h : tc.wf) (hF : tc.hasCol "From" = true)
    (hT : tc.hasCol "To" = true) :
    (preprocessSteps pt pn tc).wf ∧ (preprocessSteps pt pn tc).nrows = tc.nrows := by
  simp only [preprocessSteps]
  set t5 := ((((tc.updCol "From" (List.map (fillna (Cell.str "Unknown")))).updCol "To"
    (List.map (fillna (Cell.str "Unknown")))).updCol "Status"
    (List.map (fillna (Cell.str "Unknown")))).mapColIf "Completed"
    yesNoFill).mapColIf "Timed Out" yesNoFill with ht5
  have hw5 : t5.wf := by
    rw [ht5]
    exact Table.wf_mapColIf _ _ _ (Table.wf_mapColIf _ _ _ (Table.wf_updCol_map _ _ _
      (Table.wf_updCol_map _ _ _ (Table.wf_updCol_map _ _ _ h))))
  have hn5 : t5.nrows = tc.nrows := by
    rw [ht5, Table.nrows_mapColIf, Table.nrows_mapColIf, Table.nrows_updCol_map,
      Table.nrows_updCol_map, Table.nrows_updCol_map]
  have hF5 : t5.hasCol "From" = true := by
    rw [ht5, Table.hasCol_mapColIf, Table.hasCol_mapColIf, Table.hasCol_updCol,
      Table.hasCol_updCol, Table.hasCol_updCol]
    exact hF
  have hT5 : t5.hasCol "To" = true := by
    rw [ht5, Table.hasCol_mapColIf, Table.hasCol_mapColIf, Table.hasCol_updCol,
      Table.hasCol_updCol, Table.hasCol_updCol]
    exact hT
  obtain ⟨hw6, hn6⟩ := Table.wf_nrows_tsBlock pt hw5
  set t7 := (tsBlock pt t5).mapColIf "Translation Score" (toNumeric pn) with ht7
  have hw7 : t7.wf := Table.wf_mapColIf _ _ _ hw6
  have hn7 : t7.nrows = tc.nrows := by
    rw [ht7, Table.nrows_mapColIf, hn6, hn5]
  have hF7 : t7.hasCol "From" = true := by
    rw [ht7, Table.hasCol_mapColIf, Table.hasCol_tsBlock_ne (by decide) (by decide)]
    exact hF5
  have hT7 : t7.hasCol "To" = true := by
    rw [ht7, Table.hasCol_mapColIf, Table.hasCol_tsBlock_ne (by decide) (by decide)]
    exact hT5
  obtain ⟨hwd, hnd⟩ := Table.wf_nrows_dirBlock hw7 hF7 hT7
  exact ⟨hwd, by rw [hnd, hn7]⟩

theorem NamesFixed_dirBlock {t : Table} (h : NamesFixed t) : NamesFixed (dirBlock t) :=
  NamesFixed_putCol h (by decide) _

theorem NamesFixed_preprocessSteps (pt : String → Option ℤ) (pn : String → Option ℚ)
    {tc : Table} (h : NamesFixed tc) : NamesFixed (preprocessSteps pt pn tc) := by
  simp only [preprocessSteps]
  exact NamesFixed_dirBlock (NamesFixed_mapColIf (NamesFixed_tsBlock
    (NamesFixed_mapColIf (NamesFixed_mapColIf (NamesFixed_updCol (NamesFixed_updCol
      (NamesFixed_updCol h _ _) _ _) _ _) _ _) _ _) pt) _ _)

theorem ColPred_mapColIf_strong {n : String} {Q : Cell → Prop} {f : Cell → Cell}
    (hf : ∀ c, Q (f c)) (t : Table) : ColPred n Q (t.mapColIf n f) := by
  unfold Table.mapColIf
  split
  · exact ColPred_updCol_self hf t
  · rename_i h
    intro e he hn
    exact absurd hn (Table.not_hasCol_forall t n (by simpa using h) e he)

theorem ColPred_dirBlock_ne {n : String} (h : n ≠ "Translation Direction")
    {Q : Cell → Prop} {t : Table} (hp : ColPred n Q t) : ColPred n Q (dirBlock t) :=
  ColPred_putCol_ne (Ne.symm h) hp _

theorem ColPred_preprocessSteps_From (pt : String → Option ℤ)
    (pn : String → Option ℚ) (tc : Table) :
    ColPred "From" (fun c => ∃ c0, c = fillna (Cell.str "Unknown") c0)
      (preprocessSteps pt pn tc) := by
  simp only [preprocessSteps]
  exact ColPred_dirBlock_ne (by decide) (ColPred_mapColIf_ne (by decide)
    (ColPred_tsBlock_ne (by decide) (by decide) (by decide)
      (ColPred_mapColIf_ne (by decide) (ColPred_mapColIf_ne (by decide)
        (ColPred_updCol_ne (by decide) (ColPred_updCol_ne (by decide)
          (ColPred_updCol_self (fun c => ⟨c, rfl⟩) tc) _) _) _) _) pt) _)

theorem ColPred_preprocessSteps_To (pt : String → Option ℤ)
    (pn : String → Option ℚ) (tc : Table) :
    ColPred "To" (fun c => ∃ c0, c = fillna (Cell.str "Unknown") c0)
      (preprocessSteps pt pn tc) := by
  simp only [preprocessSteps]
  exact ColPred_dirBlock_ne (by decide) (ColPred_mapColIf_ne (by decide)
    (ColPred_tsBlock_ne (by decide) (by decide) (by decide)
      (ColPred_mapColIf_ne (by decide) (ColPred_mapColIf_ne (by decide)
        (ColPred_updCol_ne (by decide)
          (ColPred_updCol_self (fun c => ⟨c, rfl⟩) _) _) _) _) pt) _)

/-! ## The claims -/

/-- C10: preprocessing yields an absent result precisely when the cleaned
column names lack `From`, `To` or `Status` (their fill is attempted
unconditionally and the KeyError is caught); the optional columns
(`Completed`, `Timed Out`, `Timestamp`, `Translation Score`) play no role
in success or failure. -/
theorem claim_C10 (pt : String → Option ℤ) (pn : String → Option ℚ) (t : Table) :
    preprocess_data pt pn t = none ↔
      ¬((t.renameCols cleanName).hasCol "From" = true ∧
        (t.renameCols cleanName).hasCol "To" = true ∧
        (t.renameCols cleanName).hasCol "Status" = true) := by
  rw [preprocess_data_eq]
  split
  · rename_i h
    rw [Bool.and_eq_true, Bool.and_eq_true] at h
    constructor
    · intro hh
      exact absurd hh (by simp)
    · intro hneg
      exact absurd ⟨h.1, h.2.1, h.2.2⟩ hneg
  · rename_i h
    rw [Bool.and_eq_true, Bool.and_eq_true] at h
    constructor
    · intro _ hh
      exact h ⟨hh.1, hh.2.1, hh.2.2⟩
    · intro _
      rfl

/-- C9: a failed CSV read yields no table; a failed preprocessing yields no
table; and any table the loader does return is the complete preprocessing
pipeline applied to the parsed file, never a partially processed one. -/
theorem claim_C9 (pt : String → Option ℤ) (pn : String → Option ℚ) :
    (∀ msg, load_data_from_file pt pn (Except.error msg) = none)
    ∧ (∀ df, preprocess_data pt pn df = none →
        load_data_from_file pt pn (Except.ok df) = none)
    ∧ (∀ r u, load_data_from_file pt pn r = some u →
        ∃ df, r = Except.ok df ∧ preprocess_data pt pn df = some u ∧
          u = preprocessSteps pt pn (df.renameCols cleanName)) := by
  refine ⟨fun msg => rfl, fun df h => h, ?_⟩
  rintro r u hr
  cases r with
  | error m => exact absurd hr (by simp [load_data_from_file])
  | ok df =>
    have hp : preprocess_data pt pn df = some u := hr
    refine ⟨df, rfl, hp, ?_⟩
    rw [preprocess_data_eq] at hp
    split at hp
    · exact (Option.some_inj.1 hp).symm
    · exact absurd hp (by simp)

/-- Closed instance of C9: a read error and a table lacking `Status` both
produce an absent result. -/
theorem claim_C9_witness :
    load_data_from_file ptNone pnNone (Except.error "malformed csv") = none ∧
      load_data_from_file ptNone pnNone
        (Except.ok [("From", [Cell.str "EN"]), ("To", [Cell.str "FR"])]) = none :=
  ⟨(claim_C9 ptNone pnNone).1 "malformed csv",
    (claim_C9 ptNone pnNone).2.1 _ (by decide)⟩

/-- Cells that are all booleans contribute between 0 and 1 each to a sum. -/
theorem cellSum_bool_bounds (cs : List Cell)
    (hb : ∀ c ∈ cs, ∃ b, c = Cell.boolean b) :
    0 ≤ (cs.map cellVal).sum ∧ (cs.map cellVal).sum ≤ (cs.length : ℚ) := by
  induction cs with
  | nil => simp
  | cons c cs ih =>
    obtain ⟨hnn, hle⟩ := ih (fun c' hc' => hb c' (List.mem_cons_of_mem c hc'))
    obtain ⟨b, rfl⟩ := hb c (List.mem_cons_self c cs)
    have hv0 : 0 ≤ cellVal (Cell.boolean b) := by cases b <;> simp [cellVal]
    have hv1 : cellVal (Cell.boolean b) ≤ 1 := by cases b <;> simp [cellVal]
    constructor
    · simpa using add_nonneg hv0 hnn
    · simp only [List.map_cons, List.sum_cons, List.length_cons]
      push_cast
      calc cellVal (Cell.boolean b) + (cs.map cellVal).sum ≤ 1 + (cs.length : ℚ) :=
            add_le_add hv1 hle
        _ = (cs.length : ℚ) + 1 := by ring

/-- A ratio of a count to a larger positive count, scaled by 100, is in [0,100]. -/
theorem rate_bounds {c tot : ℚ} (h0 : 0 ≤ c) (hle : c ≤ tot) (hpos : 0 < tot) :
    0 ≤ c / tot * 100 ∧ c / tot * 100 ≤ 100 := by
  constructor
  · exact mul_nonneg (div_nonneg h0 hpos.le) (by norm_num)
  · calc c / tot * 100 ≤ 1 * 100 :=
        mul_le_mul_of_nonneg_right ((div_le_one hpos).2 hle) (by norm_num)
    _ = 100 := one_mul 100

/-- C1, counterexample to the claim as stated: a table whose
`Translation Score` column exists but holds only absent values has
`avg_score` = NaN (absent), not 0. -/
theorem claim_C1_counterexample :
    Table.hasCol [("Translation Score", [Cell.absent])] "Translation Score" = true ∧
      (create_summary_stats [("Translation Score", [Cell.absent])]).avg_score ≠
        some 0 := by
  decide

/-- C1 (amended): `avg_score` is the arithmetic mean of the non-absent
`Translation Score` values when at least one exists, equals 0 when the
column is absent, and is NaN (absent) — not 0 — when the column exists but
holds no non-absent value. -/
theorem claim_C1 (t : Table) :
    (t.hasCol "Translation Score" = false →
      (create_summary_stats t).avg_score = some 0)
    ∧ (t.hasCol "Translation Score" = true →
        numericVals ((t.getCol "Translation Score").getD []) ≠ [] →
        (create_summary_stats t).avg_score =
          some ((numericVals ((t.getCol "Translation Score").getD [])).sum /
            (numericVals ((t.getCol "Translation Score").getD [])).length))
    ∧ (t.hasCol "Translation Score" = true →
        numericVals ((t.getCol "Translation Score").getD []) = [] →
        (create_summary_stats t).avg_score = none) := by
  refine ⟨fun h => ?_, fun h hne => ?_, fun h he => ?_⟩
  · simp [create_summary_stats, h]
  · simp [create_summary_stats, seriesMean, h, hne]
  · simp [create_summary_stats, seriesMean, h, he]

/-- Closed instance of C1: mean of the single non-absent value 9/2. -/
theorem claim_C1_witness :
    (create_summary_stats
        [("Translation Score", [Cell.num (9/2), Cell.absent])]).avg_score =
      some ((numericVals ((Table.getCol
          [("Translation Score", [Cell.num (9/2), Cell.absent])]
          "Translation Score").getD [])).sum /
        (numericVals ((Table.getCol
          [("Translation Score", [Cell.num (9/2), Cell.absent])]
          "Translation Score").getD [])).length) :=
  (claim_C1 _).2.1 (by decide) (by decide)

/-- C4: the two rates equal count/total·100 (when the table is nonempty),
always lie in [0,100], and are exactly 0 when the table has no rows.  The
hypotheses — flag columns hold booleans and all columns share one length —
are exactly what preprocessing establishes. -/
theorem claim_C4 (t : Table) (hw : t.wf)
    (hC : boolCells t "Completed") (hT : boolCells t "Timed Out") :
    ((create_summary_stats t).total_translations ≠ 0 →
      (create_summary_stats t).completion_rate =
        (create_summary_stats t).completed_translations /
          ((create_summary_stats t).total_translations : ℚ) * 100 ∧
      (create_summary_stats t).timeout_rate =
        (create_summary_stats t).timed_out_translations /
          ((create_summary_stats t).total_translations : ℚ) * 100)
    ∧ (0 ≤ (create_summary_stats t).completion_rate ∧
        (create_summary_stats t).completion_rate ≤ 100)
    ∧ (0 ≤ (create_summary_stats t).timeout_rate ∧
        (create_summary_stats t).timeout_rate ≤ 100)
    ∧ ((create_summary_stats t).total_translations = 0 →
        (create_summary_stats t).completion_rate = 0 ∧
        (create_summary_stats t).timeout_rate = 0) := by
  have htot : (create_summary_stats t).total_translations = t.nrows := rfl
  have hcomp : (create_summary_stats t).completed_translations =
      (if t.hasCol "Completed" then colSum t "Completed" else 0) := rfl
  have htimo : (create_summary_stats t).timed_out_translations =
      (if t.hasCol "Timed Out" then colSum t "Timed Out" else 0) := rfl
  have hcr : (create_summary_stats t).completion_rate =
      (if 0 < t.nrows
       then (if t.hasCol "Completed" then colSum t "Completed" else 0) /
          (t.nrows : ℚ) * 100 else 0) := rfl
  have htr : (create_summary_stats t).timeout_rate =
      (if 0 < t.nrows
       then (if t.hasCol "Timed Out" then colSum t "Timed Out" else 0) /
          (t.nrows : ℚ) * 100 else 0) := rfl
  have hbnd : ∀ n : String, boolCells t n →
      0 ≤ (if t.hasCol n then colSum t n else 0) ∧
        (if t.hasCol n then colSum t n else 0) ≤ (t.nrows : ℚ) := by
    intro n hb
    split
    · rename_i hh
      rcases (Table.hasCol_iff_getCol t n).1 hh with ⟨cs, hcs⟩
      have hb' : ∀ c ∈ cs, ∃ b, c = Cell.boolean b := by
        intro c hc
        exact hb c (by rw [hcs]; simpa using hc)
      have := cellSum_bool_bounds cs hb'
      unfold colSum
      rw [hcs]
      simp only [Option.getD_some]
      exact ⟨this.1, by rw [Table.length_getCol t n hw hcs] at this; exact this.2⟩
    · exact ⟨le_refl 0, Nat.cast_nonneg _⟩
  obtain ⟨hC0, hCle⟩ := hbnd "Completed" hC
  obtain ⟨hT0, hTle⟩ := hbnd "Timed Out" hT
  by_cases hz : t.nrows = 0
  · refine ⟨fun hne => absurd (htot.trans hz) hne, ?_, ?_, fun _ => ?_⟩
    · rw [hcr, if_neg (by simp [hz])]
      norm_num
    · rw [htr, if_neg (by simp [hz])]
      norm_num
    · rw [hcr, htr, if_neg (by simp [hz]), if_neg (by simp [hz])]
      exact ⟨rfl, rfl⟩
  · have hpos : 0 < t.nrows := Nat.pos_of_ne_zero hz
    have hposq : (0 : ℚ) < (t.nrows : ℚ) := by exact_mod_cast hpos
    refine ⟨fun _ => ?_, ?_, ?_, fun hzz => absurd (htot ▸ hzz) hz⟩
    · rw [hcr, htr, if_pos hpos, if_pos hpos, hcomp, htimo, htot]
      exact ⟨rfl, rfl⟩
    · rw [hcr, if_pos hpos]
      exact rate_bounds hC0 hCle hposq
    · rw [htr, if_pos hpos]
      exact rate_bounds hT0 hTle hposq

/-- Closed instance of C4: one completed of two rows gives a rate of 50. -/
theorem claim_C4_witness :
    (0 ≤ (create_summary_stats
        [("Completed", [Cell.boolean true, Cell.boolean false])]).completion_rate ∧
      (create_summary_stats
        [("Completed", [Cell.boolean true, Cell.boolean false])]).completion_rate ≤
        100) ∧
      (create_summary_stats
        [("Completed", [Cell.boolean true, Cell.boolean false])]).total_translations =
        2 :=
  ⟨(claim_C4 _ (by decide) (by decide) (by decide)).2.1, by decide⟩

/-- The composed Yes/No map-and-fill always produces a boolean. -/
theorem yesNoFill_isBool (c : Cell) : ∃ b, yesNoFill c = Cell.boolean b := by
  unfold yesNoFill yesNoMap fillna
  by_cases h1 : c = Cell.str "Yes"
  · exact ⟨true, by simp [h1]⟩
  · by_cases h2 : c = Cell.str "No"
    · exact ⟨false, by simp [h1, h2]⟩
    · exact ⟨false, by simp [h1, h2]⟩

/-- The composed Yes/No map-and-fill sends `"Yes"` to true and everything
else — `"No"`, any other value, and missing alike — to false. -/
theorem yesNoFill_eq (c : Cell) :
    yesNoFill c =
      if c = Cell.str "Yes" then Cell.boolean true else Cell.boolean false := by
  unfold yesNoFill yesNoMap fillna
  by_cases h1 : c = Cell.str "Yes"
  · simp [h1]
  · by_cases h2 : c = Cell.str "No"
    · simp [h1, h2]
    · simp [h1, h2]

/-- Filling with `"Unknown"` never leaves an absent cell. -/
theorem fillna_ne_absent (c : Cell) :
    fillna (Cell.str "Unknown") c ≠ Cell.absent := by
  unfold fillna
  split
  · simp
  · assumption

/-- C5, counterexample to the claim as stated: preprocessing succeeds on a
table with no `Completed` column, and the output still has none — the
field is absent from every row, contradicting "never absent". -/
theorem claim_C5_counterexample :
    preprocess_data ptNone pnNone
        [("From", [Cell.str "EN"]), ("To", [Cell.str "FR"]),
          ("Status", [Cell.str "OK"])] =
      some [("From", [Cell.str "EN"]), ("To", [Cell.str "FR"]),
        ("Status", [Cell.str "OK"]),
        ("Translation Direction", [Cell.str "EN → FR"])] ∧
    Table.hasCol
        [("From", [Cell.str "EN"]), ("To", [Cell.str "FR"]),
          ("Status", [Cell.str "OK"]),
          ("Translation Direction", [Cell.str "EN → FR"])] "Completed" = false := by
  decide

/-- C5 (amended): when the cleaned input has a `Completed` (resp.
`Timed Out`) column, the preprocessed output holds exactly its cells mapped
through `"Yes"`→true, anything else→false, so every cell is boolean; when
the input lacks the column it remains absent after preprocessing. -/
theorem claim_C5 (pt : String → Option ℤ) (pn : String → Option ℚ) (t u : Table)
    (h : preprocess_data pt pn t = some u) :
    (u.getCol "Completed" =
      ((t.renameCols cleanName).getCol "Completed").map (List.map yesNoFill))
    ∧ (u.getCol "Timed Out" =
      ((t.renameCols cleanName).getCol "Timed Out").map (List.map yesNoFill))
    ∧ (∀ cs, u.getCol "Completed" = some cs → ∀ c ∈ cs, ∃ b, c = Cell.boolean b)
    ∧ (∀ cs, u.getCol "Timed Out" = some cs → ∀ c ∈ cs, ∃ b, c = Cell.boolean b)
    ∧ (∀ c, yesNoFill c =
        if c = Cell.str "Yes" then Cell.boolean true else Cell.boolean false) := by
  rw [preprocess_data_eq] at h
  split at h
  · have hu : u = preprocessSteps pt pn (t.renameCols cleanName) :=
      (Option.some_inj.1 h).symm
    subst hu
    obtain ⟨-, -, -, hCm, hTm, -, -⟩ :=
      preprocessSteps_getCol pt pn (t.renameCols cleanName)
    refine ⟨hCm, hTm, ?_, ?_, fun c => yesNoFill_eq c⟩
    · intro cs hcs c hc
      rw [hCm] at hcs
      rcases Option.map_eq_some'.1 hcs with ⟨cs0, -, rfl⟩
      rcases List.mem_map.1 hc with ⟨c0, -, rfl⟩
      rcases yesNoFill_isBool c0 with ⟨b, hb⟩
      exact ⟨b, hb⟩
    · intro cs hcs c hc
      rw [hTm] at hcs
      rcases Option.map_eq_some'.1 hcs with ⟨cs0, -, rfl⟩
      rcases List.mem_map.1 hc with ⟨c0, -, rfl⟩
      rcases yesNoFill_isBool c0 with ⟨b, hb⟩
      exact ⟨b, hb⟩
  · exact absurd h (by simp)

/-- Closed instance of C5: a `Completed` column `["Yes", "maybe"]` becomes
`[true, false]`, i.e. the mapped image of the cleaned input column. -/
theorem claim_C5_witness :
    Table.getCol
        [("From", [Cell.str "EN", Cell.str "DE"]),
          ("To", [Cell.str "FR", Cell.str "ES"]),
          ("Status", [Cell.str "OK", Cell.str "OK"]),
          ("Completed", [Cell.boolean true, Cell.boolean false]),
          ("Translation Direction",
            [Cell.str "EN → FR", Cell.str "DE → ES"])] "Completed" =
      (Option.map (List.map yesNoFill)
        (Table.getCol
          (Table.renameCols
            [("From", [Cell.str "EN", Cell.str "DE"]),
              ("To", [Cell.str "FR", Cell.str "ES"]),
              ("Status", [Cell.str "OK", Cell.str "OK"]),
              ("Completed", [Cell.str "Yes", Cell.str "maybe"])] cleanName)
          "Completed")) :=
  (claim_C5 ptNone pnNone
    [("From", [Cell.str "EN", Cell.str "DE"]),
      ("To", [Cell.str "FR", Cell.str "ES"]),
      ("Status", [Cell.str "OK", Cell.str "OK"]),
      ("Completed", [Cell.str "Yes", Cell.str "maybe"])] _ (by decide)).1

/-- C6: after successful preprocessing, the `Translation Direction` column
is exactly the post-fill `From` cells zipped with the post-fill `To` cells
through `from + " → " + to`; both sources are non-absent, the column covers
every row, and every direction cell is a (non-absent) string. -/
theorem claim_C6 (pt : String → Option ℤ) (pn : String → Option ℚ) (t u : Table)
    (hw : t.wf) (h : preprocess_data pt pn t = some u) :
    ∃ fs ts, u.getCol "From" = some fs ∧ u.getCol "To" = some ts ∧
      (∀ c ∈ fs, c ≠ Cell.absent) ∧ (∀ c ∈ ts, c ≠ Cell.absent) ∧
      u.getCol "Translation Direction" = some ((fs.zip ts).map mkDirection) ∧
      ((fs.zip ts).map mkDirection).length = u.nrows ∧
      (∀ c ∈ (fs.zip ts).map mkDirection, ∃ s, c = Cell.str s) := by
  rw [preprocess_data_eq] at h
  split at h
  · rename_i hcols
    rw [Bool.and_eq_true, Bool.and_eq_true] at hcols
    obtain ⟨hF, hT, hS⟩ := hcols
    have hu : u = preprocessSteps pt pn (t.renameCols cleanName) :=
      (Option.some_inj.1 h).symm
    subst hu
    have hwc := Table.wf_renameCols t cleanName hw
    obtain ⟨hwu, hnu⟩ := wf_nrows_preprocessSteps pt pn hwc hF hT
    have hFu : (preprocessSteps pt pn (t.renameCols cleanName)).hasCol "From" = true := by
      rw [hasCol_preprocessSteps_ne pt pn _ (by decide) (by decide) (by decide)]
      exact hF
    have hTu : (preprocessSteps pt pn (t.renameCols cleanName)).hasCol "To" = true := by
      rw [hasCol_preprocessSteps_ne pt pn _ (by decide) (by decide) (by decide)]
      exact hT
    rcases (Table.hasCol_iff_getCol _ "From").1 hFu with ⟨fs, hfs⟩
    rcases (Table.hasCol_iff_getCol _ "To").1 hTu with ⟨ts, hts⟩
    refine ⟨fs, ts, hfs, hts, ?_, ?_, ?_, ?_, ?_⟩
    · intro c hc
      rcases getCol_prop_of_ColPred (ColPred_preprocessSteps_From pt pn _) hfs c hc
        with ⟨c0, rfl⟩
      exact fillna_ne_absent c0
    · intro c hc
      rcases getCol_prop_of_ColPred (ColPred_preprocessSteps_To pt pn _) hts c hc
        with ⟨c0, rfl⟩
      exact fillna_ne_absent c0
    · rw [preprocessSteps_direction, hfs, hts]
      simp only [Option.getD_some]
    · rw [List.length_map, List.length_zip,
        Table.length_getCol _ "From" hwu hfs, Table.length_getCol _ "To" hwu hts]
      exact Nat.min_self _
    · intro c hc
      rcases List.mem_map.1 hc with ⟨p, -, rfl⟩
      exact ⟨render p.1 ++ " → " ++ render p.2, rfl⟩
  · exact absurd h (by simp)

/-- Closed instance of C6 on a two-row table with one absent `To`. -/
theorem claim_C6_witness :
    ∃ fs ts,
      Table.getCol
          [("From", [Cell.str "EN", Cell.str "DE"]),
            ("To", [Cell.str "FR", Cell.str "Unknown"]),
            ("Status", [Cell.str "OK", Cell.str "OK"]),
            ("Translation Direction",
              [Cell.str "EN → FR", Cell.str "DE → Unknown"])] "From" = some fs ∧
        Table.getCol
          [("From", [Cell.str "EN", Cell.str "DE"]),
            ("To", [Cell.str "FR", Cell.str "Unknown"]),
            ("Status", [Cell.str "OK", Cell.str "OK"]),
            ("Translation Direction",
              [Cell.str "EN → FR", Cell.str "DE → Unknown"])] "To" = some ts ∧
        (∀ c ∈ fs, c ≠ Cell.absent) ∧ (∀ c ∈ ts, c ≠ Cell.absent) ∧
        Table.getCol
          [("From", [Cell.str "EN", Cell.str "DE"]),
            ("To", [Cell.str "FR", Cell.str "Unknown"]),
            ("Status", [Cell.str "OK", Cell.str "OK"]),
            ("Translation Direction",
              [Cell.str "EN → FR", Cell.str "DE → Unknown"])]
          "Translation Direction" = some ((fs.zip ts).map mkDirection) ∧
        ((fs.zip ts).map mkDirection).length =
          Table.nrows
            [("From", [Cell.str "EN", Cell.str "DE"]),
              ("To", [Cell.str "FR", Cell.str "Unknown"]),
              ("Status", [Cell.str "OK", Cell.str "OK"]),
              ("Translation Direction",
                [Cell.str "EN → FR", Cell.str "DE → Unknown"])] ∧
        (∀ c ∈ (fs.zip ts).map mkDirection, ∃ s, c = Cell.str s) :=
  claim_C6 ptNone pnNone
    [("From", [Cell.str "EN", Cell.str "DE"]),
      ("To", [Cell.str "FR", Cell.absent]),
      ("Status", [Cell.str "OK", Cell.str "OK"])] _ (by decide) (by decide)

/-! ### Column-name bookkeeping for C3 -/

theorem Table.colNames_mapColIf (t : Table) (m : String) (f : Cell → Cell) :
    (t.mapColIf m f).colNames = t.colNames := by
  unfold Table.mapColIf
  split
  · exact Table.colNames_updCol t m _
  · rfl

theorem exists_extra_tsBlock (pt : String → Option ℤ) (t : Table) :
    ∃ extra, (tsBlock pt t).colNames = t.colNames ++ extra ∧
      ∀ x ∈ extra, x ∈ ["Hour", "Date", "Translation Direction"] := by
  by_cases hts : t.hasCol "Timestamp"
  · rw [tsBlock_eq_pos pt hts]
    set t1 := t.mapColIf "Timestamp" (toDatetime pt) with ht1
    have hc1 : t1.colNames = t.colNames := Table.colNames_mapColIf t _ _
    rcases Table.colNames_putCol t1 "Hour"
        ((((t1.getCol "Timestamp").getD []).map hourCell)) with h2 | h2 <;>
      rcases Table.colNames_putCol (t1.putCol "Hour"
          (((t1.getCol "Timestamp").getD []).map hourCell)) "Date"
          ((((t1.getCol "Timestamp").getD []).map dateCell)) with h3 | h3
    · exact ⟨[], by rw [h3, h2, hc1, List.append_nil], by intro x hx; cases hx⟩
    · refine ⟨["Date"], by rw [h3, h2, hc1], ?_⟩
      intro x hx
      rcases List.mem_singleton.1 hx with rfl
      simp
    · refine ⟨["Hour"], by rw [h3, h2, hc1], ?_⟩
      intro x hx
      rcases List.mem_singleton.1 hx with rfl
      simp
    · refine ⟨["Hour", "Date"], ?_, ?_⟩
      · rw [h3, h2, hc1, List.append_assoc]
        rfl
      · intro x hx
        simp only [List.mem_cons, List.mem_singleton] at hx
        rcases hx with rfl | rfl | hx
        · simp
        · simp
        · cases hx
  · rw [tsBlock_eq_neg pt (by simpa using hts)]
    exact ⟨[], by rw [List.append_nil], by intro x hx; cases hx⟩

theorem exists_extra_preprocessSteps (pt : String → Option ℤ)
    (pn : String → Option ℚ) (tc : Table) :
    ∃ extra, (preprocessSteps pt pn tc).colNames = tc.colNames ++ extra ∧
      ∀ x ∈ extra, x ∈ ["Hour", "Date", "Translation Direction"] := by
  simp only [preprocessSteps]
  set t5 := ((((tc.updCol "From" (List.map (fillna (Cell.str "Unknown")))).updCol "To"
    (List.map (fillna (Cell.str "Unknown")))).updCol "Status"
    (List.map (fillna (Cell.str "Unknown")))).mapColIf "Completed"
    yesNoFill).mapColIf "Timed Out" yesNoFill with ht5
  have hc5 : t5.colNames = tc.colNames := by
    rw [ht5, Table.colNames_mapColIf, Table.colNames_mapColIf,
      Table.colNames_updCol, Table.colNames_updCol, Table.colNames_updCol]
  obtain ⟨e1, he1, hs1⟩ := exists_extra_tsBlock pt t5
  have hc7 : ((tsBlock pt t5).mapColIf "Translation Score"
      (toNumeric pn)).colNames = tc.colNames ++ e1 := by
    rw [Table.colNames_mapColIf, he1, hc5]
  unfold dirBlock
  rcases Table.colNames_putCol ((tsBlock pt t5).mapColIf "Translation Score"
      (toNumeric pn)) "Translation Direction" _ with h8 | h8
  · exact ⟨e1, by rw [h8, hc7], hs1⟩
  · refine ⟨e1 ++ ["Translation Direction"], by
      rw [h8, hc7, List.append_assoc], ?_⟩
    intro x hx
    rcases List.mem_append.1 hx with hx | hx
    · exact hs1 x hx
    · rcases List.mem_singleton.1 hx with rfl
      simp

/-- The head of a dropWhile run never satisfies the predicate. -/
theorem dropWhile_head_not {α : Type} (p : α → Bool) (l : List α) {a : α}
    {as : List α} (h : l.dropWhile p = a :: as) : p a = false := by
  induction l with
  | nil => cases h
  | cons x xs ih =>
    rw [List.dropWhile_cons] at h
    split at h
    · exact ih h
    · rename_i hx
      cases h
      simpa using hx

/-- C3, counterexample to the claim as stated: the code strips the whole
trailing run of commas, not a single one — on `"From,,"` it produces
`"From"` where the spec's single-comma strip would give `"From,"`. -/
theorem claim_C3_counterexample :
    Table.renameCols [("From,,", ([] : List Cell))] cleanName =
        [("From", ([] : List Cell))] ∧
      cleanNameSpec "From,," = "From," ∧
      cleanName "From,," ≠ cleanNameSpec "From,," := by
  decide

/-- C3 (amended): every column name of a preprocessed table is the cleaned
form of the corresponding input name (with only the derived `Hour`, `Date`,
`Translation Direction` columns appended), where cleaning first strips
surrounding whitespace and then the ENTIRE trailing run of commas: the
trimmed name is the cleaned name followed by some number of commas, and
the cleaned name never ends in a comma. -/
theorem claim_C3 (pt : String → Option ℤ) (pn : String → Option ℚ) (t u : Table)
    (h : preprocess_data pt pn t = some u) :
    (∃ extra, u.colNames = t.colNames.map cleanName ++ extra ∧
      ∀ x ∈ extra, x ∈ ["Hour", "Date", "Translation Direction"])
    ∧ (∀ s : String, ∃ k : Nat,
        pyStrip s.data = (cleanName s).data ++ List.replicate k ',' ∧
        (cleanName s).data.getLast? ≠ some ',') := by
  constructor
  · rw [preprocess_data_eq] at h
    split at h
    · have hu : u = preprocessSteps pt pn (t.renameCols cleanName) :=
        (Option.some_inj.1 h).symm
      subst hu
      obtain ⟨extra, he, hs⟩ :=
        exists_extra_preprocessSteps pt pn (t.renameCols cleanName)
      exact ⟨extra, by rw [he, Table.colNames_renameCols], hs⟩
    · exact absurd h (by simp)
  · intro s
    have hdata : (cleanName s).data = pyRstripComma (pyStrip s.data) := rfl
    refine ⟨((pyStrip s.data).reverse.takeWhile (fun c => c == ',')).length, ?_, ?_⟩
    · rw [hdata]
      unfold pyRstripComma
      conv_lhs => rw [← List.reverse_reverse (pyStrip s.data),
        ← List.takeWhile_append_dropWhile (fun c => c == ',')
          (pyStrip s.data).reverse]
      rw [List.reverse_append]
      congr 1
      rw [← List.reverse_replicate]
      congr 1
      rw [List.eq_replicate_iff]
      exact ⟨rfl, fun b hb => by simpa using List.mem_takeWhile_imp hb⟩
    · rw [hdata]
      unfold pyRstripComma
      rw [List.getLast?_reverse]
      cases hd : (pyStrip s.data).reverse.dropWhile (fun c => c == ',') with
      | nil => simp
      | cons a as =>
        have := dropWhile_head_not (fun c => c == ',') _ hd
        simp only [List.head?_cons]
        intro hc
        rw [Option.some_inj.1 hc] at this
        simp at this

/-- Closed instance of C3 on a table with padded and comma-suffixed names. -/
theorem claim_C3_witness :
    (∃ extra,
      Table.colNames
          [("From", [Cell.str "EN"]), ("To", [Cell.str "FR"]),
            ("Status", [Cell.str "OK"]),
            ("Translation Direction", [Cell.str "EN → FR"])] =
        (Table.colNames [(" From", [Cell.str "EN"]), ("To,", [Cell.str "FR"]),
          ("Status", [Cell.str "OK"])]).map cleanName ++ extra ∧
      ∀ x ∈ extra, x ∈ ["Hour", "Date", "Translation Direction"])
    ∧ (∀ s : String, ∃ k : Nat,
        pyStrip s.data = (cleanName s).data ++ List.replicate k ',' ∧
        (cleanName s).data.getLast? ≠ some ',') :=
  claim_C3 ptNone pnNone
    [(" From", [Cell.str "EN"]), ("To,", [Cell.str "FR"]),
      ("Status", [Cell.str "OK"])] _ (by decide)

/-- Rows selected by the pointwise image of a predicate are its filter. -/
theorem maskCol_map_self (p : Cell → Bool) (cs : List Cell) :
    maskCol (cs.map p) cs = cs.filter p := by
  induction cs with
  | nil => rfl
  | cons c cs ih =>
    show maskCol (p c :: cs.map p) (c :: cs) = _
    unfold maskCol
    rw [List.zip_cons_cons, List.filter_cons, List.filter_cons]
    by_cases h : p c
    · simp only [h, if_pos trivial]
      simp [maskCol] at ih
      simp [h, ih]
    · simp only [h]
      simp [maskCol] at ih
      simp [h, ih]

/-- C8: the date filter keeps, uniformly in every column, exactly the rows
whose `Timestamp` is present and whose derived date lies between the bounds
inclusively; rows whose timestamp (hence date) is absent are excluded. -/
theorem claim_C8 (t : Table) (lo hi : ℤ) :
    (∀ n cs, t.getCol n = some cs →
      (apply_date_filter t lo hi).getCol n = some (maskCol (dateMask t lo hi) cs))
    ∧ (∀ cs, t.getCol "Timestamp" = some cs →
        (apply_date_filter t lo hi).getCol "Timestamp" =
          some (cs.filter (dateKeep lo hi)))
    ∧ (∀ c, dateKeep lo hi c = true ↔
        ∃ z, c = Cell.time z ∧ lo ≤ dateOf z ∧ dateOf z ≤ hi) := by
  refine ⟨?_, ?_, ?_⟩
  · intro n cs hcs
    unfold apply_date_filter
    rw [Table.getCol_filterMask, hcs]
    rfl
  · intro cs hcs
    unfold apply_date_filter
    rw [Table.getCol_filterMask, hcs]
    unfold dateMask
    rw [hcs]
    simp only [Option.getD_some, Option.map_some']
    rw [maskCol_map_self]
  · intro c
    cases c with
    | time z =>
      constructor
      · intro h
        simp only [dateKeep, Bool.and_eq_true, decide_eq_true_eq] at h
        exact ⟨z, rfl, h.1, h.2⟩
      · rintro ⟨z', hz, h1, h2⟩
        cases hz
        simp only [dateKeep, Bool.and_eq_true, decide_eq_true_eq]
        exact ⟨h1, h2⟩
    | absent => simp [dateKeep]
    | str s => simp [dateKeep]
    | boolean b => simp [dateKeep]
    | num q => simp [dateKeep]
    | date d => simp [dateKeep]

/-- Closed instance of C8: day bounds 0 to 10 keep minute 1500 (day 1),
drop the absent timestamp and drop minute 999999 (day 694). -/
theorem claim_C8_witness :
    (apply_date_filter
        [("Timestamp", [Cell.time 1500, Cell.absent, Cell.time 999999])] 0
        10).getCol "Timestamp" =
      some ([Cell.time 1500, Cell.absent, Cell.time 999999].filter
        (dateKeep 0 10)) :=
  (claim_C8 _ 0 10).2.1 _ (by decide)

/-! ### Counting helpers for C7 -/

theorem length_maskCol (mask : List Bool) (cs : List Cell)
    (h : mask.length = cs.length) :
    (maskCol mask cs).length = mask.countP id := by
  induction mask generalizing cs with
  | nil => rfl
  | cons b bs ih =>
    cases cs with
    | nil => simp at h
    | cons c cs' =>
      have h' : bs.length = cs'.length := by simpa using h
      show (maskCol (b :: bs) (c :: cs')).length = _
      unfold maskCol
      rw [List.zip_cons_cons, List.filter_cons, List.countP_cons]
      by_cases hb : b
      · have hthis := ih cs' h'
        unfold maskCol at hthis
        simp only [hb, if_pos trivial, List.map_cons, List.length_cons, id, hthis]
      · have hthis := ih cs' h'
        unfold maskCol at hthis
        rw [if_neg (by simpa using hb), hthis]
        simp [hb]

theorem Table.ne_nil_of_hasCol {t : Table} {n : String} (h : t.hasCol n = true) :
    t ≠ [] := by
  intro h0
  subst h0
  simp [Table.hasCol] at h

theorem Table.nrows_filterMask {t : Table} (mask : List Bool) (hw : t.wf)
    (hm : mask.length = t.nrows) (hne : t ≠ []) :
    (t.filterMask mask).nrows = mask.countP id := by
  cases t with
  | nil => exact absurd rfl hne
  | cons e rest =>
    show (maskCol mask e.2).length = _
    exact length_maskCol mask e.2
      (by rw [hm, hw e (List.mem_cons_self e rest)])

theorem countP_decide_eq_count (dv : List Cell) (d : Cell) :
    dv.countP (fun c => decide (c = d)) = dv.count d := by
  rw [List.count_eq_countP]
  apply List.countP_congr
  intro a ha
  by_cases h : a = d <;> simp [h]

/-- C7: the per-direction `Total` fields sum to `totalTranslations`. -/
theorem claim_C7 (pt : String → Option ℤ) (pn : String → Option ℚ) (t u : Table)
    (hw : t.wf) (h : preprocess_data pt pn t = some u) :
    ((create_direction_analysis u).map (fun d => d.total)).sum =
      (create_summary_stats u).total_translations := by
  rw [preprocess_data_eq] at h
  split at h
  · rename_i hcols
    rw [Bool.and_eq_true, Bool.and_eq_true] at hcols
    obtain ⟨hF, hT, hS⟩ := hcols
    have hu : u = preprocessSteps pt pn (t.renameCols cleanName) :=
      (Option.some_inj.1 h).symm
    subst hu
    have hwc := Table.wf_renameCols t cleanName hw
    obtain ⟨hwu, hnu⟩ := wf_nrows_preprocessSteps pt pn hwc hF hT
    set U := preprocessSteps pt pn (t.renameCols cleanName) with hU
    have hFu : U.hasCol "From" = true := by
      rw [hU, hasCol_preprocessSteps_ne pt pn _ (by decide) (by decide) (by decide)]
      exact hF
    have hTu : U.hasCol "To" = true := by
      rw [hU, hasCol_preprocessSteps_ne pt pn _ (by decide) (by decide) (by decide)]
      exact hT
    rcases (Table.hasCol_iff_getCol U "From").1 hFu with ⟨fs, hfs⟩
    rcases (Table.hasCol_iff_getCol U "To").1 hTu with ⟨ts, hts⟩
    have hdir : U.getCol "Translation Direction" =
        some ((fs.zip ts).map mkDirection) := by
      rw [hU, preprocessSteps_direction, ← hU, hfs, hts]
      simp only [Option.getD_some]
    set dv := (fs.zip ts).map mkDirection with hdv
    have hlen_dv : dv.length = U.nrows := by
      rw [hdv, List.length_map, List.length_zip,
        Table.length_getCol U "From" hwu hfs, Table.length_getCol U "To" hwu hts]
      exact Nat.min_self _
    have hnonabs : ∀ c ∈ dv, (decide (c ≠ Cell.absent)) = true := by
      intro c hc
      rcases List.mem_map.1 hc with ⟨p, -, rfl⟩
      simp [mkDirection]
    have htotal : ∀ d, (dirStatOf U dv d).total = dv.count d := by
      intro d
      show (U.filterMask (dv.map (fun c => decide (c = d)))).nrows = _
      rw [Table.nrows_filterMask _ hwu (by rw [List.length_map, hlen_dv])
        (Table.ne_nil_of_hasCol hFu), List.countP_map]
      exact countP_decide_eq_count dv d
    have hkeys : groupKeys dv = dv.dedup := by
      unfold groupKeys
      rw [List.filter_eq_self.2 hnonabs]
    show ((create_direction_analysis U).map (fun d => d.total)).sum = U.nrows
    simp only [create_direction_analysis]
    rw [hdir]
    simp only [Option.getD_some]
    rw [hkeys, List.map_map]
    calc ((dv.dedup.map ((fun d => d.total) ∘ dirStatOf U dv))).sum
        = (dv.dedup.map (fun d => dv.count d)).sum := by
          apply congrArg
          exact List.map_congr_left (fun d _ => htotal d)
      _ = dv.length := List.sum_map_count_dedup_eq_length dv
      _ = U.nrows := hlen_dv
  · exact absurd h (by simp)

/-- Closed instance of C7 on a three-row table with two directions. -/
theorem claim_C7_witness :
    ((create_direction_analysis
        [("From", [Cell.str "EN", Cell.str "EN", Cell.str "DE"]),
          ("To", [Cell.str "FR", Cell.str "FR", Cell.str "ES"]),
          ("Status", [Cell.str "OK", Cell.str "OK", Cell.str "OK"]),
          ("Translation Direction",
            [Cell.str "EN → FR", Cell.str "EN → FR",
              Cell.str "DE → ES"])]).map (fun d => d.total)).sum =
      (create_summary_stats
        [("From", [Cell.str "EN", Cell.str "EN", Cell.str "DE"]),
          ("To", [Cell.str "FR", Cell.str "FR", Cell.str "ES"]),
          ("Status", [Cell.str "OK", Cell.str "OK", Cell.str "OK"]),
          ("Translation Direction",
            [Cell.str "EN → FR", Cell.str "EN → FR",
              Cell.str "DE → ES"])]).total_translations :=
  claim_C7 ptNone pnNone
    [("From", [Cell.str "EN", Cell.str "EN", Cell.str "DE"]),
      ("To", [Cell.str "FR", Cell.str "FR", Cell.str "ES"]),
      ("Status", [Cell.str "OK", Cell.str "OK", Cell.str "OK"])] _
    (by decide) (by decide)

/-! ### Second-pass machinery for C2 -/

theorem ColPred_mono {n : String} {Q R : Cell → Prop} (hQ : ∀ c, Q c → R c)
    {t : Table} (h : ColPred n Q t) : ColPred n R t :=
  fun e he hn c hc => hQ c (h e he hn c hc)

theorem fillUnknown_idem (c : Cell) :
    fillna (Cell.str "Unknown") (fillna (Cell.str "Unknown") c) =
      fillna (Cell.str "Unknown") c := by
  unfold fillna
  by_cases h : c = Cell.absent <;> simp [h]

theorem toDatetime_idem (pt : String → Option ℤ) (c : Cell) :
    toDatetime pt (toDatetime pt c) = toDatetime pt c := by
  cases c with
  | str s => cases hpt : pt s <;> simp [toDatetime, hpt]
  | absent => rfl
  | boolean b => rfl
  | num q => rfl
  | time z => rfl
  | date d => rfl

theorem toNumeric_idem (pn : String → Option ℚ) (c : Cell) :
    toNumeric pn (toNumeric pn c) = toNumeric pn c := by
  cases c with
  | str s => cases hpn : pn s <;> simp [toNumeric, hpn]
  | absent => rfl
  | boolean b => rfl
  | num q => rfl
  | time z => rfl
  | date d => rfl

theorem yesNoFill_boolean (b : Bool) :
    yesNoFill (Cell.boolean b) = Cell.boolean false := by
  rw [yesNoFill_eq]
  simp

theorem Table.updCol_map_eq_self {n : String} {f : Cell → Cell} {t : Table}
    (h : ColPred n (fun c => f c = c) t) : t.updCol n (List.map f) = t := by
  apply Table.updCol_eq_self
  intro e he hn
  rw [List.map_congr_left (fun c hc => h e he hn c hc)]
  simp

theorem Table.mapColIf_eq_updCol (t : Table) (n : String) (f : Cell → Cell) :
    t.mapColIf n f = t.updCol n (List.map f) := by
  unfold Table.mapColIf
  split
  · rfl
  · rename_i h
    symm
    apply Table.updCol_eq_self
    intro e he hn
    exact absurd hn (Table.not_hasCol_forall t n (by simpa using h) e he)

theorem ColEq_dirBlock_ne {n : String} (h : n ≠ "Translation Direction")
    {v : List Cell} {t : Table} (hp : ColEq n v t) : ColEq n v (dirBlock t) :=
  ColEq_putCol_ne (Ne.symm h) hp _

theorem ColPred_preprocessSteps_Status (pt : String → Option ℤ)
    (pn : String → Option ℚ) (tc : Table) :
    ColPred "Status" (fun c => ∃ c0, c = fillna (Cell.str "Unknown") c0)
      (preprocessSteps pt pn tc) := by
  simp only [preprocessSteps]
  exact ColPred_dirBlock_ne (by decide) (ColPred_mapColIf_ne (by decide)
    (ColPred_tsBlock_ne (by decide) (by decide) (by decide)
      (ColPred_mapColIf_ne (by decide) (ColPred_mapColIf_ne (by decide)
        (ColPred_updCol_self (fun c => ⟨c, rfl⟩) _) _) _) pt) _)

theorem ColPred_preprocessSteps_Completed (pt : String → Option ℤ)
    (pn : String → Option ℚ) (tc : Table) :
    ColPred "Completed" (fun c => ∃ b, c = Cell.boolean b)
      (preprocessSteps pt pn tc) := by
  simp only [preprocessSteps]
  refine ColPred_dirBlock_ne (by decide) (ColPred_mapColIf_ne (by decide)
    (ColPred_tsBlock_ne (by decide) (by decide) (by decide)
      (ColPred_mapColIf_ne (by decide) ?_ _) pt) _)
  exact ColPred_mapColIf_strong (fun c => by
    rcases yesNoFill_isBool c with ⟨b, hb⟩
    exact ⟨b, hb⟩) _

theorem ColPred_preprocessSteps_TimedOut (pt : String → Option ℤ)
    (pn : String → Option ℚ) (tc : Table) :
    ColPred "Timed Out" (fun c => ∃ b, c = Cell.boolean b)
      (preprocessSteps pt pn tc) := by
  simp only [preprocessSteps]
  refine ColPred_dirBlock_ne (by decide) (ColPred_mapColIf_ne (by decide)
    (ColPred_tsBlock_ne (by decide) (by decide) (by decide) ?_ pt) _)
  exact ColPred_mapColIf_strong (fun c => by
    rcases yesNoFill_isBool c with ⟨b, hb⟩
    exact ⟨b, hb⟩) _

theorem ColPred_tsBlock_timestamp (pt : String → Option ℤ) (t : Table) :
    ColPred "Timestamp" (fun c => toDatetime pt c = c) (tsBlock pt t) := by
  by_cases hts : t.hasCol "Timestamp"
  · rw [tsBlock_eq_pos pt hts]
    refine ColPred_putCol_ne (by decide) (ColPred_putCol_ne (by decide) ?_ _) _
    exact ColPred_mapColIf_strong (fun c => toDatetime_idem pt c) t
  · rw [tsBlock_eq_neg pt (by simpa using hts)]
    intro e he hn
    exact absurd hn (Table.not_hasCol_forall t _ (by simpa using hts) e he)

theorem ColPred_preprocessSteps_Timestamp (pt : String → Option ℤ)
    (pn : String → Option ℚ) (tc : Table) :
    ColPred "Timestamp" (fun c => toDatetime pt c = c)
      (preprocessSteps pt pn tc) := by
  simp only [preprocessSteps]
  exact ColPred_dirBlock_ne (by decide) (ColPred_mapColIf_ne (by decide)
    (ColPred_tsBlock_timestamp pt _) _)

theorem ColPred_preprocessSteps_Score (pt : String → Option ℤ)
    (pn : String → Option ℚ) (tc : Table) :
    ColPred "Translation Score" (fun c => toNumeric pn c = c)
      (preprocessSteps pt pn tc) := by
  simp only [preprocessSteps]
  exact ColPred_dirBlock_ne (by decide)
    (ColPred_mapColIf_strong (fun c => toNumeric_idem pn c) _)

theorem ColEq_preprocessSteps_direction (pt : String → Option ℤ)
    (pn : String → Option ℚ) (tc : Table) :
    ColEq "Translation Direction"
      (((((preprocessSteps pt pn tc).getCol "From").getD []).zip
        (((preprocessSteps pt pn tc).getCol "To").getD [])).map mkDirection)
      (preprocessSteps pt pn tc) := by
  simp only [preprocessSteps]
  rw [Table.getCol_dirBlock_ne (by decide), Table.getCol_dirBlock_ne (by decide)]
  unfold dirBlock
  exact ColEq_putCol_self _

theorem ColEq_preprocessSteps_hour_date (pt : String → Option ℤ)
    (pn : String → Option ℚ) (tc : Table) (hts : tc.hasCol "Timestamp" = true) :
    ColEq "Hour"
        ((((preprocessSteps pt pn tc).getCol "Timestamp").getD []).map hourCell)
        (preprocessSteps pt pn tc) ∧
      ColEq "Date"
        ((((preprocessSteps pt pn tc).getCol "Timestamp").getD []).map dateCell)
        (preprocessSteps pt pn tc) := by
  obtain ⟨-, -, -, -, -, hTsCol, -⟩ := preprocessSteps_getCol pt pn tc
  simp only [preprocessSteps] at hTsCol ⊢
  set t5 := ((((tc.updCol "From" (List.map (fillna (Cell.str "Unknown")))).updCol "To"
    (List.map (fillna (Cell.str "Unknown")))).updCol "Status"
    (List.map (fillna (Cell.str "Unknown")))).mapColIf "Completed"
    yesNoFill).mapColIf "Timed Out" yesNoFill with ht5
  have hts5 : t5.hasCol "Timestamp" = true := by
    rw [ht5, Table.hasCol_mapColIf, Table.hasCol_mapColIf, Table.hasCol_updCol,
      Table.hasCol_updCol, Table.hasCol_updCol]
    exact hts
  have ht5Ts : t5.getCol "Timestamp" = tc.getCol "Timestamp" := by
    rw [ht5, Table.getCol_mapColIf_ne (by decide), Table.getCol_mapColIf_ne (by decide),
      Table.getCol_updCol_ne _ (by decide), Table.getCol_updCol_ne _ (by decide),
      Table.getCol_updCol_ne _ (by decide)]
  obtain ⟨hH, hD⟩ := tsBlock_hour_date pt t5 hts5
  constructor
  · rw [hTsCol, getD_listMap, ← ht5Ts]
    exact ColEq_dirBlock_ne (by decide) (ColEq_mapColIf_ne (by decide) hH _)
  · rw [hTsCol, getD_listMap, ← ht5Ts]
    exact ColEq_dirBlock_ne (by decide) (ColEq_mapColIf_ne (by decide) hD _)

theorem hasCol_preprocessSteps_hour_date (pt : String → Option ℤ)
    (pn : String → Option ℚ) (tc : Table) (hts : tc.hasCol "Timestamp" = true) :
    (preprocessSteps pt pn tc).hasCol "Hour" = true ∧
      (preprocessSteps pt pn tc).hasCol "Date" = true := by
  simp only [preprocessSteps]
  set t5 := ((((tc.updCol "From" (List.map (fillna (Cell.str "Unknown")))).updCol "To"
    (List.map (fillna (Cell.str "Unknown")))).updCol "Status"
    (List.map (fillna (Cell.str "Unknown")))).mapColIf "Completed"
    yesNoFill).mapColIf "Timed Out" yesNoFill with ht5
  have hts5 : t5.hasCol "Timestamp" = true := by
    rw [ht5, Table.hasCol_mapColIf, Table.hasCol_mapColIf, Table.hasCol_updCol,
      Table.hasCol_updCol, Table.hasCol_updCol]
    exact hts
  rw [hasCol_dirBlock, hasCol_dirBlock, Table.hasCol_mapColIf, Table.hasCol_mapColIf,
    tsBlock_eq_pos pt hts5, Table.hasCol_putCol, Table.hasCol_putCol,
    Table.hasCol_putCol, Table.hasCol_putCol]
  constructor <;> simp

theorem hasCol_preprocessSteps_direction (pt : String → Option ℤ)
    (pn : String → Option ℚ) (tc : Table) :
    (preprocessSteps pt pn tc).hasCol "Translation Direction" = true := by
  simp only [preprocessSteps]
  rw [hasCol_dirBlock]
  simp

theorem forceBools_eq (t : Table) :
    forceBoolsFalse t =
      (t.updCol "Completed" (List.map (fun _ => Cell.boolean false))).updCol
        "Timed Out" (List.map (fun _ => Cell.boolean false)) := by
  unfold forceBoolsFalse Table.updCol
  rw [List.map_map]
  apply List.map_congr_left
  intro e he
  by_cases h1 : e.1 = "Completed"
  · have h2 : e.1 ≠ "Timed Out" := by rw [h1]; decide
    simp [h1, h2, Function.comp]
  · by_cases h2 : e.1 = "Timed Out"
    · simp [h1, h2, Function.comp]
    · simp [h1, h2, Function.comp]

/-- C2, counterexample to the claim as stated: preprocessing is not
idempotent — a `Completed` cell `"Yes"` becomes `true` on the first pass
and `false` on the second, because the boolean `True` matches neither
`'Yes'` nor `'No'` in the `.map({...})` dictionary and `.fillna(False)`
turns the resulting NaN into `False`. -/
theorem claim_C2_counterexample :
    ((preprocess_data ptNone pnNone
        [("From", [Cell.str "EN"]), ("To", [Cell.str "FR"]),
          ("Status", [Cell.str "OK"]), ("Completed", [Cell.str "Yes"])]).bind
      (preprocess_data ptNone pnNone)) ≠
      preprocess_data ptNone pnNone
        [("From", [Cell.str "EN"]), ("To", [Cell.str "FR"]),
          ("Status", [Cell.str "OK"]), ("Completed", [Cell.str "Yes"])] := by
  decide

/-- C2 (amended): on any output of preprocessing (whose column names are
stable under a second cleaning), a second application of `preprocess_data`
succeeds and changes nothing except the `Completed` and `Timed Out`
columns, whose boolean entries all collapse to `false`; in particular the
timestamp, score, `Hour`, `Date` and direction columns are unchanged, and
preprocessing is idempotent exactly when the boolean columns hold no
`true`. -/
theorem claim_C2 (pt : String → Option ℤ) (pn : String → Option ℚ) (t u : Table)
    (hstab : ∀ e ∈ t, cleanName (cleanName e.1) = cleanName e.1)
    (h : preprocess_data pt pn t = some u) :
    preprocess_data pt pn u = some (forceBoolsFalse u) := by
  rw [preprocess_data_eq] at h
  split at h
  · rename_i hcols
    rw [Bool.and_eq_true, Bool.and_eq_true] at hcols
    obtain ⟨hF, hT, hS⟩ := hcols
    have hu : u = preprocessSteps pt pn (t.renameCols cleanName) :=
      (Option.some_inj.1 h).symm
    set tc := t.renameCols cleanName with htc
    have hNFtc : NamesFixed tc := by
      rw [htc]
      intro e he
      rcases List.mem_map.1 he with ⟨e0, h0, rfl⟩
      exact hstab e0 h0
    have hNFu : NamesFixed u := by
      rw [hu]
      exact NamesFixed_preprocessSteps pt pn hNFtc
    have hren : u.renameCols cleanName = u := Table.renameCols_eq_self hNFu
    have hFu : u.hasCol "From" = true := by
      rw [hu, hasCol_preprocessSteps_ne pt pn _ (by decide) (by decide) (by decide)]
      exact hF
    have hTu : u.hasCol "To" = true := by
      rw [hu, hasCol_preprocessSteps_ne pt pn _ (by decide) (by decide) (by decide)]
      exact hT
    have hSu : u.hasCol "Status" = true := by
      rw [hu, hasCol_preprocessSteps_ne pt pn _ (by decide) (by decide) (by decide)]
      exact hS
    rw [preprocess_data_eq, hren, hFu, hTu, hSu,
      if_pos (show (true && (true && true)) = true from rfl)]
    congr 1
    -- fixed-point predicates on the columns of u
    have hPFrom : ColPred "From" (fun c => fillna (Cell.str "Unknown") c = c) u := by
      rw [hu]
      exact ColPred_mono (fun c hc => by
        rcases hc with ⟨c0, rfl⟩
        exact fillUnknown_idem c0) (ColPred_preprocessSteps_From pt pn tc)
    have hPTo : ColPred "To" (fun c => fillna (Cell.str "Unknown") c = c) u := by
      rw [hu]
      exact ColPred_mono (fun c hc => by
        rcases hc with ⟨c0, rfl⟩
        exact fillUnknown_idem c0) (ColPred_preprocessSteps_To pt pn tc)
    have hPSt : ColPred "Status" (fun c => fillna (Cell.str "Unknown") c = c) u := by
      rw [hu]
      exact ColPred_mono (fun c hc => by
        rcases hc with ⟨c0, rfl⟩
        exact fillUnknown_idem c0) (ColPred_preprocessSteps_Status pt pn tc)
    have hPC : ColPred "Completed" (fun c => yesNoFill c = Cell.boolean false) u := by
      rw [hu]
      exact ColPred_mono (fun c hc => by
        rcases hc with ⟨b, rfl⟩
        exact yesNoFill_boolean b) (ColPred_preprocessSteps_Completed pt pn tc)
    have hPT : ColPred "Timed Out" (fun c => yesNoFill c = Cell.boolean false) u := by
      rw [hu]
      exact ColPred_mono (fun c hc => by
        rcases hc with ⟨b, rfl⟩
        exact yesNoFill_boolean b) (ColPred_preprocessSteps_TimedOut pt pn tc)
    have hPTs : ColPred "Timestamp" (fun c => toDatetime pt c = c) u := by
      rw [hu]
      exact ColPred_preprocessSteps_Timestamp pt pn tc
    have hPSc : ColPred "Translation Score" (fun c => toNumeric pn c = c) u := by
      rw [hu]
      exact ColPred_preprocessSteps_Score pt pn tc
    have hDirEq : ColEq "Translation Direction"
        ((((u.getCol "From").getD []).zip ((u.getCol "To").getD [])).map mkDirection)
        u := by
      conv in ((u.getCol "From").getD []) => rw [hu]
      conv in ((u.getCol "To").getD []) => rw [hu]
      rw [hu]
      exact ColEq_preprocessSteps_direction pt pn tc
    have hTDu : u.hasCol "Translation Direction" = true := by
      rw [hu]
      exact hasCol_preprocessSteps_direction pt pn tc
    have hTsu : u.hasCol "Timestamp" = tc.hasCol "Timestamp" := by
      rw [hu]
      exact hasCol_preprocessSteps_ne pt pn _ (by decide) (by decide) (by decide)
    -- the second pass, step by step
    simp only [preprocessSteps]
    rw [Table.updCol_map_eq_self hPFrom, Table.updCol_map_eq_self hPTo,
      Table.updCol_map_eq_self hPSt]
    have e4 : u.mapColIf "Completed" yesNoFill =
        u.updCol "Completed" (List.map (fun _ => Cell.boolean false)) := by
      rw [Table.mapColIf_eq_of_ColPred hPC, Table.mapColIf_eq_updCol]
    rw [e4]
    set A := u.updCol "Completed" (List.map (fun _ => Cell.boolean false)) with hA
    have e5 : A.mapColIf "Timed Out" yesNoFill =
        A.updCol "Timed Out" (List.map (fun _ => Cell.boolean false)) := by
      rw [Table.mapColIf_eq_of_ColPred (ColPred_updCol_ne (by decide) hPT _),
        Table.mapColIf_eq_updCol]
    rw [e5]
    set FB := A.updCol "Timed Out" (List.map (fun _ => Cell.boolean false)) with hFB
    have hgetFB : ∀ n : String, n ≠ "Completed" → n ≠ "Timed Out" →
        FB.getCol n = u.getCol n := by
      intro n h1 h2
      rw [hFB, Table.getCol_updCol_ne _ (Ne.symm h2), hA,
        Table.getCol_updCol_ne _ (Ne.symm h1)]
    have hhasFB : ∀ n : String, FB.hasCol n = u.hasCol n := by
      intro n
      rw [hFB, Table.hasCol_updCol, hA, Table.hasCol_updCol]
    have e6 : tsBlock pt FB = FB := by
      by_cases hts : tc.hasCol "Timestamp" = true
      · have htsFB : FB.hasCol "Timestamp" = true := by
          rw [hhasFB, hTsu]
          exact hts
        rw [tsBlock_eq_pos pt htsFB]
        have e61 : FB.mapColIf "Timestamp" (toDatetime pt) = FB := by
          apply Table.mapColIf_eq_self
          exact ColPred_updCol_ne (by decide) (ColPred_updCol_ne (by decide) hPTs _) _
        rw [e61]
        obtain ⟨hHq, hDq⟩ := ColEq_preprocessSteps_hour_date pt pn tc hts
        rw [← hu] at hHq hDq
        have hHFB : ColEq "Hour" (((u.getCol "Timestamp").getD []).map hourCell) FB :=
          ColEq_updCol_ne (by decide) (ColEq_updCol_ne (by decide) hHq _) _
        have hDFB : ColEq "Date" (((u.getCol "Timestamp").getD []).map dateCell) FB :=
          ColEq_updCol_ne (by decide) (ColEq_updCol_ne (by decide) hDq _) _
        obtain ⟨hHourU, hDateU⟩ := hasCol_preprocessSteps_hour_date pt pn tc hts
        rw [← hu] at hHourU hDateU
        have e62 : FB.putCol "Hour" (((FB.getCol "Timestamp").getD []).map hourCell) =
            FB := by
          apply Table.putCol_eq_self (by rw [hhasFB]; exact hHourU)
          rw [hgetFB "Timestamp" (by decide) (by decide)]
          exact hHFB
        rw [e62]
        apply Table.putCol_eq_self (by rw [hhasFB]; exact hDateU)
        rw [hgetFB "Timestamp" (by decide) (by decide)]
        exact hDFB
      · apply tsBlock_eq_neg
        rw [hhasFB, hTsu]
        simpa using hts
    rw [e6]
    have e7 : FB.mapColIf "Translation Score" (toNumeric pn) = FB := by
      apply Table.mapColIf_eq_self
      exact ColPred_updCol_ne (by decide) (ColPred_updCol_ne (by decide) hPSc _) _
    rw [e7]
    have e8 : dirBlock FB = FB := by
      unfold dirBlock
      apply Table.putCol_eq_self (by rw [hhasFB]; exact hTDu)
      rw [hgetFB "From" (by decide) (by decide), hgetFB "To" (by decide) (by decide)]
      exact ColEq_updCol_ne (by decide) (ColEq_updCol_ne (by decide) hDirEq _) _
    rw [e8, hFB, hA]
    exact (forceBools_eq u).symm
  · exact absurd h (by simp)

/-- Closed instance of C2: a second pass over a preprocessed one-row table
flips its `Completed` value `true` to `false` and changes nothing else. -/
theorem claim_C2_witness :
    preprocess_data ptNone pnNone
        [("From", [Cell.str "EN"]), ("To", [Cell.str "FR"]),
          ("Status", [Cell.str "OK"]), ("Completed", [Cell.boolean true]),
          ("Translation Direction", [Cell.str "EN → FR"])] =
      some (forceBoolsFalse
        [("From", [Cell.str "EN"]), ("To", [Cell.str "FR"]),
          ("Status", [Cell.str "OK"]), ("Completed", [Cell.boolean true]),
          ("Translation Direction", [Cell.str "EN → FR"])]) :=
  claim_C2 ptNone pnNone
    [("From", [Cell.str "EN"]), ("To", [Cell.str "FR"]),
      ("Status", [Cell.str "OK"]), ("Completed", [Cell.str "Yes"])] _
    (by decide) (by decide)

end TranslationDashboard
